import Mathlib

/-!
Verification of the streaming/caching core of audio.libx.js.

This file gives a shallow embedding of the parts of the library that the
verified properties talk about:

- src/MediaSourceHelper.ts : the pure format sniffer detectAudioFormat
  with its helpers _isWavFormat, _isMp3Format, _isWebMFormat, _isOggFormat;
- src/AudioCache.ts : the persistent chunk cache (get / set / has / delete /
  clear / cleanup and the hit-ratio accounting).  The IndexedDB object store
  and the in-memory Map are both modelled as association lists with unique
  string keys; IndexedDB returns entries in ascending key order, but no
  verified property depends on the enumeration order, so the store keeps
  insertion order here;
- src/AudioStreamer.ts : the orchestrator (streamFromUrl /
  streamFromResponse / _cacheFromResponse / _streamForPlayback /
  _cancelStream), modelled as pure transformers of an explicit world record
  that tracks the cache, the number of fetches issued, how many times a
  response body was consumed, the emitted lifecycle events, the active
  abort controllers and the audio element.

Asynchronous host operations (IndexedDB transactions, stream reads) are
modelled by their success semantics; where a host API's documented
behaviour decides a result (for example that an IDBObjectStore.delete
request completes with result = undefined) this is stated in a comment at
the definition.  Bytes are natural numbers (values of a Uint8Array are
below 256; none of the properties needs that bound).
-/

namespace AudioLibx

/-! ## Association lists: the model of JS Map and of the IndexedDB store

Keys are unique in both (Map keys are unique; the object store has keyPath
id).  set replaces the binding in place, as Map.set and IDB put do; delete
removes the sole binding with the key. -/

/-- Look up a key, as Map.get / IDBObjectStore.get. -/
def alookup {α : Type} (l : List (String × α)) (k : String) : Option α :=
  match l.find? (fun p => p.1 == k) with
  | some p => some p.2
  | none => none

/-- Replace-or-append a binding, as Map.set / IDBObjectStore.put. -/
def aset {α : Type} (l : List (String × α)) (k : String) (v : α) :
    List (String × α) :=
  if l.any (fun p => p.1 == k) then
    l.map (fun p => if p.1 == k then (k, v) else p)
  else
    l ++ [(k, v)]

/-- Remove the binding with the key (keys are unique, so removing every
match removes the sole binding), as Map.delete / IDBObjectStore.delete. -/
def aerase {α : Type} (l : List (String × α)) (k : String) :
    List (String × α) :=
  l.filter (fun p => !(p.1 == k))

/-! ## Format sniffer (src/MediaSourceHelper.ts) -/

/-- A byte buffer (the contents of a Uint8Array). -/
abbrev Bytes := List Nat

/-- bytes[i]; the source only reads indexes it has length-guarded. -/
def byteAt (b : Bytes) (i : Nat) : Nat := b.getD i 0

/-- The container classification names used by detectAudioFormat. -/
inductive AudioType where
  | wav | mp3 | webm | ogg | unknown
deriving DecidableEq, Repr

/-- The AudioFormat record returned by detectAudioFormat.  In the source
requiresConversion and codec are optional fields; an absent
requiresConversion is falsy, modelled by the default false. -/
structure AudioFormat where
  type : AudioType
  mimeType : String
  streamable : Bool
  requiresConversion : Bool := false
  codec : Option String := none
deriving DecidableEq, Repr

/-- _isWavFormat: length guard, then the RIFF signature at offset 0 and the
WAVE signature at offset 8 (the source compares the 4-byte slices decoded
with String.fromCharCode against the literals, which for the guarded
slices is exactly this bytewise comparison). -/
def isWavFormat (bytes : Bytes) : Bool :=
  if bytes.length < 12 then false
  else
    decide (byteAt bytes 0 = 0x52 ∧ byteAt bytes 1 = 0x49 ∧
      byteAt bytes 2 = 0x46 ∧ byteAt bytes 3 = 0x46 ∧
      byteAt bytes 8 = 0x57 ∧ byteAt bytes 9 = 0x41 ∧
      byteAt bytes 10 = 0x56 ∧ byteAt bytes 11 = 0x45)

/-- _isMp3Format: a global guard of at least 3 bytes, then the ID3v2 tag at
the start, the MP3 frame-sync pattern at the start, or an ID3v1 TAG block
at offset length - 128. -/
def isMp3Format (bytes : Bytes) : Bool :=
  if bytes.length < 3 then false
  else if byteAt bytes 0 = 0x49 ∧ byteAt bytes 1 = 0x44 ∧
      byteAt bytes 2 = 0x33 then true
  else if 2 ≤ bytes.length ∧ byteAt bytes 0 = 0xFF ∧
      Nat.land (byteAt bytes 1) 0xE0 = 0xE0 then true
  else if 128 ≤ bytes.length ∧
      byteAt bytes (bytes.length - 128) = 0x54 ∧
      byteAt bytes (bytes.length - 128 + 1) = 0x41 ∧
      byteAt bytes (bytes.length - 128 + 2) = 0x47 then true
  else false

/-- _isWebMFormat: the EBML header 1A 45 DF A3. -/
def isWebMFormat (bytes : Bytes) : Bool :=
  if bytes.length < 4 then false
  else
    decide (byteAt bytes 0 = 0x1A ∧ byteAt bytes 1 = 0x45 ∧
      byteAt bytes 2 = 0xDF ∧ byteAt bytes 3 = 0xA3)

/-- _isOggFormat: the OggS signature. -/
def isOggFormat (bytes : Bytes) : Bool :=
  if bytes.length < 4 then false
  else
    decide (byteAt bytes 0 = 0x4F ∧ byteAt bytes 1 = 0x67 ∧
      byteAt bytes 2 = 0x67 ∧ byteAt bytes 3 = 0x53)

/-- detectAudioFormat: the checks run in the order WAV, MP3, WebM, Ogg,
with the unknown fallback carrying the safe mpeg mime type. -/
def detectAudioFormat (bytes : Bytes) : AudioFormat :=
  if isWavFormat bytes then
    { type := .wav, mimeType := "audio/wav", streamable := false,
      requiresConversion := true }
  else if isMp3Format bytes then
    { type := .mp3, mimeType := "audio/mpeg", streamable := true }
  else if isWebMFormat bytes then
    { type := .webm, mimeType := "audio/webm", streamable := true,
      codec := some "opus" }
  else if isOggFormat bytes then
    { type := .ogg, mimeType := "audio/ogg", streamable := true }
  else
    { type := .unknown, mimeType := "audio/mpeg", streamable := false }

/-- The classification rules exactly as the specification states them: a
RIFF/WAVE signature (52 49 46 46 at offset 0 and 57 41 56 45 at offset 8)
is wav with requiresConversion; an ID3 tag (the ID3 signature at the
start) or a 0xFF byte followed by a byte with its top three bits set is
mp3; an EBML header is webm; an OggS signature is ogg; everything else is
unknown with the audio/mpeg fallback.  Written from the wording of the
specification, to be compared with detectAudioFormat. -/
def specFormatRules (bytes : Bytes) : AudioFormat :=
  if 12 ≤ bytes.length ∧ byteAt bytes 0 = 0x52 ∧ byteAt bytes 1 = 0x49 ∧
      byteAt bytes 2 = 0x46 ∧ byteAt bytes 3 = 0x46 ∧
      byteAt bytes 8 = 0x57 ∧ byteAt bytes 9 = 0x41 ∧
      byteAt bytes 10 = 0x56 ∧ byteAt bytes 11 = 0x45 then
    { type := .wav, mimeType := "audio/wav", streamable := false,
      requiresConversion := true }
  else if (3 ≤ bytes.length ∧ byteAt bytes 0 = 0x49 ∧
        byteAt bytes 1 = 0x44 ∧ byteAt bytes 2 = 0x33) ∨
      (2 ≤ bytes.length ∧ byteAt bytes 0 = 0xFF ∧
        Nat.land (byteAt bytes 1) 0xE0 = 0xE0) then
    { type := .mp3, mimeType := "audio/mpeg", streamable := true }
  else if 4 ≤ bytes.length ∧ byteAt bytes 0 = 0x1A ∧ byteAt bytes 1 = 0x45 ∧
      byteAt bytes 2 = 0xDF ∧ byteAt bytes 3 = 0xA3 then
    { type := .webm, mimeType := "audio/webm", streamable := true,
      codec := some "opus" }
  else if 4 ≤ bytes.length ∧ byteAt bytes 0 = 0x4F ∧ byteAt bytes 1 = 0x67 ∧
      byteAt bytes 2 = 0x67 ∧ byteAt bytes 3 = 0x53 then
    { type := .ogg, mimeType := "audio/ogg", streamable := true }
  else
    { type := .unknown, mimeType := "audio/mpeg", streamable := false }

/-- The specification rules amended to what the code does: an mp3
classification additionally needs at least 3 bytes of input (so a bare
2-byte frame-sync prefix stays unknown), and an ID3v1 trailer (the TAG
signature at offset length - 128 in an input of at least 128 bytes) also
counts as an ID3 tag. -/
def specFormatRulesAmended (bytes : Bytes) : AudioFormat :=
  if 12 ≤ bytes.length ∧ byteAt bytes 0 = 0x52 ∧ byteAt bytes 1 = 0x49 ∧
      byteAt bytes 2 = 0x46 ∧ byteAt bytes 3 = 0x46 ∧
      byteAt bytes 8 = 0x57 ∧ byteAt bytes 9 = 0x41 ∧
      byteAt bytes 10 = 0x56 ∧ byteAt bytes 11 = 0x45 then
    { type := .wav, mimeType := "audio/wav", streamable := false,
      requiresConversion := true }
  else if 3 ≤ bytes.length ∧
      ((byteAt bytes 0 = 0x49 ∧ byteAt bytes 1 = 0x44 ∧
          byteAt bytes 2 = 0x33) ∨
        (byteAt bytes 0 = 0xFF ∧ Nat.land (byteAt bytes 1) 0xE0 = 0xE0) ∨
        (128 ≤ bytes.length ∧
          byteAt bytes (bytes.length - 128) = 0x54 ∧
          byteAt bytes (bytes.length - 128 + 1) = 0x41 ∧
          byteAt bytes (bytes.length - 128 + 2) = 0x47)) then
    { type := .mp3, mimeType := "audio/mpeg", streamable := true }
  else if 4 ≤ bytes.length ∧ byteAt bytes 0 = 0x1A ∧ byteAt bytes 1 = 0x45 ∧
      byteAt bytes 2 = 0xDF ∧ byteAt bytes 3 = 0xA3 then
    { type := .webm, mimeType := "audio/webm", streamable := true,
      codec := some "opus" }
  else if 4 ≤ bytes.length ∧ byteAt bytes 0 = 0x4F ∧ byteAt bytes 1 = 0x67 ∧
      byteAt bytes 2 = 0x67 ∧ byteAt bytes 3 = 0x53 then
    { type := .ogg, mimeType := "audio/ogg", streamable := true }
  else
    { type := .unknown, mimeType := "audio/mpeg", streamable := false }

/-! ## Persistent cache (src/AudioCache.ts)

The model assumes an initialized cache (the _db handle open); durable I/O
is modelled by its success semantics.  customData (an untyped record the
cache never inspects) is omitted from the entry. -/

/-- An AudioCacheEntry as written by set: the chunk list, the mime type,
the caching timestamp, the computed total size, the processed flag, the
tags and the persisted access counter (always written as 0 by set). -/
structure AudioCacheEntry where
  id : String
  chunks : List Bytes
  mimeType : String
  cachedAt : Nat
  originalSize : Nat
  processed : Bool := false
  tags : List String := []
  accessCount : Nat := 0
deriving DecidableEq, Repr

/-- The mutable state of an AudioCache instance: the in-memory Map mirror,
the IndexedDB object store, the private _accessCounts Map and the
hit-ratio accumulators _totalAccesses / _cacheHits together with the
_stats.hitRatio field they feed (held exactly, as a rational). -/
structure CacheState where
  memoryCache : List (String × AudioCacheEntry) := []
  dbStore : List (String × AudioCacheEntry) := []
  accessCounts : List (String × Nat) := []
  totalAccesses : Nat := 0
  cacheHits : Nat := 0
  hitRatioQ : ℚ := 0
deriving DecidableEq, Repr

/-- A freshly initialized cache over existing durable contents:
_loadMemoryCache hydrates the memory Map from the store; the counters
start at zero and _stats.hitRatio at its initial 0. -/
def cacheInit (db : List (String × AudioCacheEntry)) : CacheState :=
  { dbStore := db, memoryCache := db }

/-- _incrementAccessCount: bumps the private _accessCounts Map (and only
that Map; the persisted entry record is not touched). -/
def incrementAccessCount (s : CacheState) (id : String) : CacheState :=
  { s with
      accessCounts :=
        aset s.accessCounts id ((alookup s.accessCounts id).getD 0 + 1) }

/-- _updateHitRatio: _stats.hitRatio becomes _cacheHits / _totalAccesses
when any access happened, else 0. -/
def updateHitRatio (s : CacheState) : CacheState :=
  { s with
      hitRatioQ :=
        if 0 < s.totalAccesses then
          (s.cacheHits : ℚ) / (s.totalAccesses : ℚ)
        else 0 }

/-- get: counts the access, then memory-first lookup, else durable lookup
with promotion into memory; every hit bumps _cacheHits and the private
access counter; the hit ratio is recomputed on every path. -/
def cacheGet (s : CacheState) (id : String) :
    Option (List Bytes) × CacheState :=
  let s1 : CacheState := { s with totalAccesses := s.totalAccesses + 1 }
  match alookup s1.memoryCache id with
  | some entry =>
      (some entry.chunks,
        updateHitRatio (incrementAccessCount
          { s1 with cacheHits := s1.cacheHits + 1 } id))
  | none =>
      match alookup s1.dbStore id with
      | some entry =>
          (some entry.chunks,
            updateHitRatio (incrementAccessCount
              { s1 with cacheHits := s1.cacheHits + 1,
                        memoryCache := aset s1.memoryCache id entry } id))
      | none => (none, updateHitRatio s1)

/-- set: computes the total size, builds the entry with a fresh timestamp
and a zero access counter, writes it durably (put) and mirrors it into
memory, overwriting any prior entry for the id. -/
def cacheSet (s : CacheState) (id : String) (chunks : List Bytes)
    (mimeType : String) (now : Nat) (tags : List String := [])
    (processed : Bool := false) : CacheState :=
  let entry : AudioCacheEntry :=
    { id := id, chunks := chunks, mimeType := mimeType, cachedAt := now,
      originalSize := chunks.foldl (fun sum c => sum + c.length) 0,
      processed := processed, tags := tags, accessCount := 0 }
  { s with dbStore := aset s.dbStore id entry,
           memoryCache := aset s.memoryCache id entry }

/-- has: memory fast path returning true with no state change at all;
otherwise delegates to get (which counts the access). -/
def cacheHas (s : CacheState) (id : String) : Bool × CacheState :=
  if (alookup s.memoryCache id).isSome then (true, s)
  else
    let r := cacheGet s id
    (r.1.isSome, r.2)

/-- delete: _deleteEntry runs store.delete(id), which removes the durable
record, and resolves request.result !== undefined; an IDBObjectStore
delete request always completes with result = undefined, so this resolves
false.  The memory mirror and the access counter are then only cleaned
inside the if (deleted) branch, which therefore never runs. -/
def cacheDelete (s : CacheState) (id : String) : Bool × CacheState :=
  let db2 := aerase s.dbStore id
  let deleted := false
  if deleted then
    (deleted, { s with dbStore := db2,
                       memoryCache := aerase s.memoryCache id,
                       accessCounts := aerase s.accessCounts id })
  else
    (deleted, { s with dbStore := db2 })

/-- clear: wipes the store, the memory mirror and the access counters and
resets both hit-ratio accumulators (the _stats.hitRatio field itself is
only recomputed by the next get). -/
def cacheClear (s : CacheState) : CacheState :=
  { s with dbStore := [], memoryCache := [], accessCounts := [],
           totalAccesses := 0, cacheHits := 0 }

/-- getStats copies _stats; its hitRatio field is the value maintained by
_updateHitRatio (the storage/tag refreshes do not touch it). -/
def cacheGetStats (s : CacheState) : ℚ := s.hitRatioQ

/-! ### cleanup -/

/-- The CacheCleanupOptions record. -/
structure CleanupOptions where
  maxAge : Option Nat := none
  maxEntries : Option Nat := none
  minAccessCount : Option Nat := none
  tags : Option (List String) := none
  excludeTags : Option (List String) := none
deriving DecidableEq, Repr

/-- JS truthiness of an optional number: absent and 0 are falsy. -/
def natTruthy (o : Option Nat) : Bool :=
  match o with
  | none => false
  | some n => !(n == 0)

/-- The guard options.tags && options.tags.length > 0 (and likewise for
excludeTags): present with at least one element. -/
def listTruthy (o : Option (List String)) : Bool :=
  match o with
  | none => false
  | some l => !(l.length == 0)

/-- The shouldDelete flag of cleanup pass 1: age pruning (in Nat, the JS
negative difference for an entry from the future compares like 0, i.e.
never exceeds a truthy maxAge) or access-count pruning against the
persisted accessCount field. -/
def shouldDeleteEntry (o : CleanupOptions) (now : Nat)
    (e : AudioCacheEntry) : Bool :=
  (natTruthy o.maxAge && decide (o.maxAge.getD 0 < now - e.cachedAt)) ||
    (natTruthy o.minAccessCount &&
      decide (e.accessCount < o.minAccessCount.getD 0))

/-- The two continue guards of cleanup pass 1: skip the entry when a tag
filter is set and no tag matches, or when an excluded tag is present. -/
def tagSkip (o : CleanupOptions) (e : AudioCacheEntry) : Bool :=
  (listTruthy o.tags &&
      !(e.tags.any (fun t => (o.tags.getD []).contains t))) ||
    (listTruthy o.excludeTags &&
      e.tags.any (fun t => (o.excludeTags.getD []).contains t))

/-- cleanup pass 1: walk every stored entry, skip tag-filtered ones, and
delete (via this.delete) those satisfying the pruning condition, counting
each deletion. -/
def cleanupPass1 (s : CacheState) (now : Nat) (o : CleanupOptions) :
    Nat × CacheState :=
  (s.dbStore.map Prod.snd).foldl
    (fun acc e =>
      if tagSkip o e then acc
      else if shouldDeleteEntry o now e then
        (acc.1 + 1, (cacheDelete acc.2 e.id).2)
      else acc)
    (0, s)

/-- The pass 2 comparator (a, b) => accessCount diff, then cachedAt diff,
as a total preorder: a sorts no later than b. -/
def entryLe (a b : AudioCacheEntry) : Bool :=
  decide (a.accessCount < b.accessCount) ||
    (a.accessCount == b.accessCount && decide (a.cachedAt ≤ b.cachedAt))

/-- cleanup: pass 1, then, when maxEntries is truthy and the surviving
count still exceeds it, a stable sort by (accessCount, cachedAt) and
deletion of the lowest entries down to the cap (Array.prototype.sort is
stable and the comparator is a total preorder, so the stable mergeSort
produces the same ordering).  Returns the total deleted. -/
def cacheCleanup (s : CacheState) (now : Nat) (o : CleanupOptions) :
    Nat × CacheState :=
  let p1 := cleanupPass1 s now o
  if natTruthy o.maxEntries then
    let remaining := p1.2.dbStore.map Prod.snd
    if o.maxEntries.getD 0 < remaining.length then
      (remaining.mergeSort entryLe).take
          (remaining.length - o.maxEntries.getD 0)
        |>.foldl (fun acc e => (acc.1 + 1, (cacheDelete acc.2 e.id).2)) p1
    else p1
  else p1

/-! ### Operation sequences over one cache -/

/-- One public cache operation (with its inputs), for stating invariants
over arbitrary interleavings. -/
inductive CacheOp where
  | opGet (id : String)
  | opHas (id : String)
  | opSet (id : String) (chunks : List Bytes) (mimeType : String)
      (now : Nat) (tags : List String) (processed : Bool)
  | opDelete (id : String)
  | opClear
  | opCleanup (now : Nat) (o : CleanupOptions)
deriving DecidableEq

/-- Run one operation for its state effect. -/
def applyOp (s : CacheState) : CacheOp → CacheState
  | .opGet id => (cacheGet s id).2
  | .opHas id => (cacheHas s id).2
  | .opSet id chunks mimeType now tags processed =>
      cacheSet s id chunks mimeType now tags processed
  | .opDelete id => (cacheDelete s id).2
  | .opClear => cacheClear s
  | .opCleanup now o => (cacheCleanup s now o).2

/-- Run a sequence of operations. -/
def runOps (s : CacheState) (ops : List CacheOp) : CacheState :=
  ops.foldl applyOp s

/-- Whether an operation is a (re-)set of the given id. -/
def CacheOp.isSetFor : CacheOp → String → Bool
  | .opSet i _ _ _ _ _, id => i == id
  | _, _ => false

/-- Byte concatenation of a chunk sequence. -/
def concatBytes (l : List Bytes) : Bytes := l.flatten

/-- The state reached by a sequence of gets. -/
def runGetsState (s : CacheState) : List String → CacheState
  | [] => s
  | id :: rest => runGetsState (cacheGet s id).2 rest

/-- How many of a sequence of gets hit. -/
def runGetsHits (s : CacheState) : List String → Nat
  | [] => 0
  | id :: rest =>
      (if (cacheGet s id).1.isSome then 1 else 0) +
        runGetsHits (cacheGet s id).2 rest

/-- Well-formedness of a store: unique keys, each the id of its entry
(IndexedDB keyPath id guarantees both; every model operation preserves
them). -/
def storeWF (db : List (String × AudioCacheEntry)) : Prop :=
  (db.map Prod.fst).Nodup ∧ ∀ p ∈ db, p.1 = p.2.id

/-- The entry stored under an id (in either layer) holds exactly the
given chunk sequence: the invariant behind claim C1. -/
def entryFaithful (s : CacheState) (id : String) (chunks : List Bytes) :
    Prop :=
  (∀ e, alookup s.memoryCache id = some e → e.chunks = chunks) ∧
  (∀ e, alookup s.dbStore id = some e → e.chunks = chunks)

/-- The hit-ratio accounting invariant behind claim C7: the hit counter
never exceeds the access counter and the reported ratio stays in the unit
interval. -/
def ratioWF (s : CacheState) : Prop :=
  s.cacheHits ≤ s.totalAccesses ∧ 0 ≤ s.hitRatioQ ∧ s.hitRatioQ ≤ 1

/-! ## Orchestrator (src/AudioStreamer.ts)

The streamer is modelled as a pure transformer of a world record.  The
host pieces it drives are reduced to what the verified properties
observe: fetchCount counts network requests issued by streamFromUrl,
bodyReads counts how many times a response body (or a clone of it) is
consumed, events is the ordered log of emitted lifecycle signals and
audioElement is the playback sink (its src attribute and paused flag).
The justCache option is false throughout, as in the verified scenarios,
and cancellation tokens are unsignalled inside streamFromResponse (the
claims about cancellation are stated against cancelStream and the
playback-loop model below). -/

/-- The sink: the src attribute and the paused state of the audio
element. -/
structure AudioElem where
  src : Option String := none
  paused : Bool := true
deriving DecidableEq, Repr

/-- _resetAudioElement: pause(), removeAttribute(src), load(). -/
def resetAudioElement (_a : AudioElem) : AudioElem :=
  { src := none, paused := true }

/-- The lifecycle event tags of StreamingEventType used here. -/
inductive EventTag where
  | loadStart | cacheHit | cacheMiss | bufferProgress | canPlay
  | playStart | playEnd | errorEv | stateChange
deriving DecidableEq, Repr

/-- The streamer options the claims depend on. -/
structure StreamerOptions where
  enableCaching : Bool := true
  enableTrimming : Bool := true
deriving DecidableEq, Repr

/-- The orchestrator world: the cache, the initialization flag, the
counters of issued fetches and of body consumptions, the emitted event
log (tag, audioId), the ids holding a live AbortController, the ids whose
token has been signalled, and the audio element. -/
structure StreamWorld where
  cache : CacheState := {}
  opts : StreamerOptions := {}
  inited : Bool := false
  fetchCount : Nat := 0
  bodyReads : Nat := 0
  events : List (EventTag × String) := []
  activeStreams : List String := []
  abortedTokens : List String := []
  audioElement : AudioElem := {}
deriving DecidableEq, Repr

/-- _emitEvent appends to the log (listener exceptions are swallowed and
do not affect the world). -/
def emitEvent (w : StreamWorld) (t : EventTag) (id : String) :
    StreamWorld :=
  { w with events := w.events ++ [(t, id)] }

/-- A network response: its url, its content-type header (the empty
string models a missing or empty header, both falsy), the body chunks it
yields, and whether the body read rejects after those chunks instead of
completing. -/
structure NetResponse where
  url : String := ""
  contentType : String := "audio/mpeg"
  chunks : List Bytes := []
  bodyErrors : Bool := false
deriving DecidableEq, Repr

/-- initialize(): idempotent; on the first call the cache is initialized
(hydrating the memory Map from the durable store) when caching is
enabled, and loadStart is emitted (with no audio id, modelled as the
empty string). -/
def streamerInitialize (w : StreamWorld) : StreamWorld :=
  if w.inited then w
  else
    let c :=
      if w.opts.enableCaching then
        { w.cache with memoryCache := w.cache.dbStore }
      else w.cache
    emitEvent { w with cache := c, inited := true } .loadStart ""

/-- Map.set on _activeStreams (unique keys kept as a list of ids). -/
def addActive (l : List String) (id : String) : List String :=
  if l.contains id then l else l ++ [id]

/-- The read-and-collect loop of _cacheFromResponse: each read yields the
next chunk; the terminal read either reports done (break) or rejects
(none: the surrounding try catches, logs a warning and returns). -/
inductive BodyEnd where
  | bodyDone | bodyErr
deriving DecidableEq, Repr

/-- Drain a body: chunks in order, then the terminal outcome. -/
def drainBody : List Bytes → BodyEnd → List Bytes → Option (List Bytes)
  | [], .bodyDone, acc => some acc
  | [], .bodyErr, _acc => none
  | c :: rest, e, acc => drainBody rest e (acc ++ [c])

/-- _cacheFromResponse: returns untouched when caching is disabled;
otherwise acquires a reader (counted as one body consumption), drains the
body, and only when the drain completed without rejection and collected
at least one chunk writes the payload with cache.set under the
content-type (or the audio/mpeg fallback). -/
def cacheFromResponse (w : StreamWorld) (resp : NetResponse) (id : String)
    (now : Nat) : StreamWorld :=
  if !w.opts.enableCaching then w
  else
    let w1 : StreamWorld := { w with bodyReads := w.bodyReads + 1 }
    match drainBody resp.chunks
        (if resp.bodyErrors then .bodyErr else .bodyDone) [] with
    | none => w1
    | some chunks =>
        if 0 < chunks.length then
          let mime :=
            if resp.contentType = "" then "audio/mpeg" else resp.contentType
          { w1 with cache := cacheSet w1.cache id chunks mime now }
        else w1

/-- The loop events of _streamForPlayback, one loop-style signal tag per
emission. -/
inductive LoopEvent where
  | evStateChange | evCanPlay | evPlayStart
deriving DecidableEq, Repr

/-- The chunk loop of _streamForPlayback after the first chunk was
appended: at each iteration the cancellation checkpoint is consulted
(abortAt is the index of the first checkpoint that observes the signalled
token; iterations below it ran before cancellation).  A read that yields
a chunk appends it and, the first time the buffer-sufficiency test holds,
starts playback (stateChange to playing, canPlay, playStart); a read that
reports done leaves the loop, and the not-yet-started fallback starts
playback (stateChange, playStart) unless the token was observed
signalled. -/
def streamLoopGo (suff : Nat → Bool) :
    List Bytes → Nat → Nat → Bool → List LoopEvent
  | [], i, abortAt, started =>
      if abortAt ≤ i then []
      else if !started then [.evStateChange, .evPlayStart] else []
  | _ :: rest, i, abortAt, started =>
      if abortAt ≤ i then []
      else
        let fire := !started && suff i
        (if fire then [.evStateChange, .evCanPlay, .evPlayStart]
          else []) ++
          streamLoopGo suff rest (i + 1) abortAt (started || fire)

/-- The events the playback loop emits for a given chunk tail and a given
cancellation checkpoint. -/
def streamLoopEvents (suff : Nat → Bool) (chunks : List Bytes)
    (abortAt : Nat) : List LoopEvent :=
  streamLoopGo suff chunks 0 abortAt false

/-- _streamForPlayback on the world, with an unsignalled token: sets the
state to streaming (emitting stateChange), resets the audio element,
consumes the response body clone (counted), and runs the chunk loop over
the whole body with playback start controlled by the buffer-sufficiency
test (the per-iteration detail lives in streamLoopEvents; here the
world-level effect records the loop events under the id). -/
def streamForPlayback (w : StreamWorld) (resp : NetResponse) (id : String)
    (suff : Nat → Bool) : StreamWorld :=
  let w1 := emitEvent w .stateChange id
  let w2 : StreamWorld :=
    { w1 with audioElement := resetAudioElement w1.audioElement,
              bodyReads := w1.bodyReads + 1 }
  { w2 with
      events := w2.events ++
        (streamLoopEvents suff resp.chunks (resp.chunks.length + 1)).map
          (fun e =>
            (match e with
              | .evStateChange => EventTag.stateChange
              | .evCanPlay => EventTag.canPlay
              | .evPlayStart => EventTag.playStart, id)) }

/-- _playFromCache: sets state to loading (emitting stateChange), resets
the element and plays the stored chunks from a processed blob URL or a
MediaSource URL; no network object is touched. -/
def playFromCacheModel (w : StreamWorld) (id : String) : StreamWorld :=
  let w1 := emitEvent w .stateChange id
  { w1 with audioElement := { src := some "blob:cached", paused := false } }

/-- streamFromResponse: initialize, register the request's
AbortController, then: with caching enabled and the id cached, emit
cacheHit and play from the cache without touching the response; otherwise
emit cacheMiss, stream a clone for playback and run the cache-fill
consumer over the original body. -/
def streamFromResponse (w : StreamWorld) (resp : NetResponse)
    (id : String) (now : Nat) (suff : Nat → Bool) : StreamWorld :=
  let w1 := streamerInitialize w
  let w2 : StreamWorld :=
    { w1 with activeStreams := addActive w1.activeStreams id }
  if w2.opts.enableCaching then
    match cacheGet w2.cache id with
    | (some _, c2) =>
        playFromCacheModel (emitEvent { w2 with cache := c2 } .cacheHit id)
          id
    | (none, c2) =>
        let w3 := emitEvent { w2 with cache := c2 } .cacheMiss id
        cacheFromResponse (streamForPlayback w3 resp id suff) resp id now
  else
    let w3 := emitEvent w2 .cacheMiss id
    cacheFromResponse (streamForPlayback w3 resp id suff) resp id now

/-- streamFromUrl: fetch(url) issues the network request first (counted),
and only then delegates to streamFromResponse, where the cache is
consulted; the response is assumed ok. -/
def streamFromUrl (w : StreamWorld) (resp : NetResponse) (id : String)
    (now : Nat) (suff : Nat → Bool) : StreamWorld :=
  streamFromResponse { w with fetchCount := w.fetchCount + 1 } resp id now
    suff

/-- _cancelStream: when the id holds a live AbortController, signal its
token and drop the map entry; nothing else (in particular not the audio
element, not the event log, not the cache) is touched. -/
def cancelStream (w : StreamWorld) (id : String) : StreamWorld :=
  if w.activeStreams.contains id then
    { w with abortedTokens := id :: w.abortedTokens,
             activeStreams := w.activeStreams.filter (fun x => !(x == id)) }
  else w

/-! ### Concrete scenario data for the closed theorems -/

/-- One mp3-typed network response with a one-chunk body. -/
def c2Resp : NetResponse :=
  { url := "u", contentType := "audio/mpeg", chunks := [[1, 2]] }

/-- The world after a first streamFromUrl of c2Resp under id a. -/
def c2World1 : StreamWorld :=
  streamFromUrl {} c2Resp "a" 0 (fun _ => true)

/-- The world after a second streamFromUrl of c2Resp under the same
id. -/
def c2World2 : StreamWorld :=
  streamFromUrl c2World1 c2Resp "a" 1 (fun _ => true)

/-- An initialized world whose cache already holds id a. -/
def c2CachedWorld : StreamWorld :=
  { inited := true,
    cache := cacheSet (cacheInit []) "a" [[7]] "audio/mpeg" 0 }

/-- A world whose cache already holds id a, for the mid-body error
scenario. -/
def c8World : StreamWorld :=
  { cache := cacheSet (cacheInit []) "a" [[1], [2]] "audio/mpeg" 0 }

/-- A response whose body rejects after one chunk. -/
def c8Resp : NetResponse := { chunks := [[5]], bodyErrors := true }

/-- A playing element for stream a. -/
def c9Elem : AudioElem := { src := some "blob:live", paused := false }

/-- A world mid-playback of active stream a. -/
def c9World : StreamWorld :=
  { activeStreams := ["a"], audioElement := c9Elem }

/-- Entry x of the cleanup-cap scenario: most accessed. -/
def c5EntryX : AudioCacheEntry :=
  { id := "x", chunks := [[1]], mimeType := "audio/mpeg", cachedAt := 5,
    originalSize := 1, accessCount := 3 }

/-- Entry y: ties with z on accessCount but is more recent. -/
def c5EntryY : AudioCacheEntry :=
  { id := "y", chunks := [[2]], mimeType := "audio/mpeg", cachedAt := 9,
    originalSize := 1, accessCount := 1 }

/-- Entry z: ties with y on accessCount and is the older. -/
def c5EntryZ : AudioCacheEntry :=
  { id := "z", chunks := [[3]], mimeType := "audio/mpeg", cachedAt := 2,
    originalSize := 1, accessCount := 1 }

/-- The three-entry store of the cleanup-cap scenario. -/
def c5Store : List (String × AudioCacheEntry) :=
  [("x", c5EntryX), ("y", c5EntryY), ("z", c5EntryZ)]

/-- A cache over that store. -/
def c5State : CacheState := { dbStore := c5Store }

/-! ## Lemmas about the association-list maps -/

theorem alookup_isSome_iff {α : Type} (l : List (String × α)) (k : String) :
    (alookup l k).isSome = true ↔ l.any (fun p => p.1 == k) = true := by
  induction l with
  | nil => simp [alookup]
  | cons p rest ih =>
      by_cases h : p.1 = k
      · simp [alookup, List.find?, h]
      · have hb : (p.1 == k) = false := beq_false_of_ne h
        simpa [alookup, List.find?, hb] using ih

theorem alookup_aset_self {α : Type} (l : List (String × α)) (k : String)
    (v : α) : alookup (aset l k v) k = some v := by
  unfold aset
  by_cases hany : l.any (fun p => p.1 == k) = true
  · rw [if_pos hany]
    induction l with
    | nil => simp at hany
    | cons p rest ih =>
        by_cases h : p.1 = k
        · simp [alookup, List.find?, h]
        · have hb : (p.1 == k) = false := beq_false_of_ne h
          have hany2 : rest.any (fun p => p.1 == k) = true := by
            simpa [hb] using hany
          simpa [alookup, List.find?, hb] using ih hany2
  · rw [if_neg hany]
    induction l with
    | nil => simp [alookup, List.find?]
    | cons p rest ih =>
        have hb : (p.1 == k) = false := by
          by_contra hc
          exact hany (by simp [List.any_cons, eq_true_of_ne_false hc])
        have hrest : ¬ rest.any (fun p => p.1 == k) = true := by
          intro hc
          exact hany (by simp [List.any_cons, hc])
        simpa [alookup, List.find?, hb] using ih hrest

theorem alookup_map_update {α : Type} (l : List (String × α))
    (k j : String) (v : α) (hne : j ≠ k) :
    alookup (l.map (fun p => if p.1 == k then (k, v) else p)) j =
      alookup l j := by
  induction l with
  | nil => rfl
  | cons p rest ih =>
      by_cases h : p.1 = k
      · have hbj : (k == j) = false := beq_false_of_ne (Ne.symm hne)
        have hpj : (p.1 == j) = false := by
          rw [h]; exact hbj
        have hbk : (p.1 == k) = true := by simp [h]
        simpa [alookup, List.find?, hbk, hbj, hpj] using ih
      · have hb : (p.1 == k) = false := beq_false_of_ne h
        by_cases hpj : p.1 = j
        · have hbj : (p.1 == j) = true := by simp [hpj]
          simp [alookup, List.find?, hb, hbj]
        · have hbj : (p.1 == j) = false := beq_false_of_ne hpj
          simpa [alookup, List.find?, hb, hbj] using ih

theorem alookup_append_single {α : Type} (l : List (String × α))
    (k j : String) (v : α) (hne : j ≠ k) :
    alookup (l ++ [(k, v)]) j = alookup l j := by
  induction l with
  | nil =>
      have hbj : (k == j) = false := beq_false_of_ne (Ne.symm hne)
      simp [alookup, List.find?, hbj]
  | cons p rest ih =>
      by_cases hpj : p.1 = j
      · have hbj : (p.1 == j) = true := by simp [hpj]
        simp [alookup, List.find?, hbj]
      · have hbj : (p.1 == j) = false := beq_false_of_ne hpj
        simpa [alookup, List.find?, hbj] using ih

theorem alookup_aset_ne {α : Type} (l : List (String × α)) (k j : String)
    (v : α) (hne : j ≠ k) : alookup (aset l k v) j = alookup l j := by
  unfold aset
  by_cases hany : l.any (fun p => p.1 == k) = true
  · rw [if_pos hany]
    exact alookup_map_update l k j v hne
  · rw [if_neg hany]
    exact alookup_append_single l k j v hne

theorem alookup_cons {α : Type} (p : String × α) (rest : List (String × α))
    (j : String) :
    alookup (p :: rest) j =
      if (p.1 == j) = true then some p.2 else alookup rest j := by
  by_cases h : (p.1 == j) = true <;> simp [alookup, List.find?, h]

theorem alookup_aerase {α : Type} (l : List (String × α)) (k j : String) :
    alookup (aerase l k) j = if j = k then none else alookup l j := by
  induction l with
  | nil => simp [alookup, aerase]
  | cons p rest ih =>
      by_cases hpk : p.1 = k
      · have he : aerase (p :: rest) k = aerase rest k := by
          simp [aerase, List.filter_cons, hpk]
        rw [he, ih]
        by_cases hjk : j = k
        · simp [hjk]
        · have hpj : (p.1 == j) = false := by
            apply beq_false_of_ne
            rw [hpk]
            exact fun hc => hjk hc.symm
          rw [if_neg hjk, if_neg hjk, alookup_cons]
          simp [hpj]
      · have hb : (p.1 == k) = false := beq_false_of_ne hpk
        have he : aerase (p :: rest) k = p :: aerase rest k := by
          simp [aerase, List.filter_cons, hb]
        rw [he, alookup_cons, alookup_cons, ih]
        by_cases hpj : p.1 = j
        · have hjk : ¬ j = k := by
            intro hc
            exact hpk (by rw [hpj, hc])
          simp [hpj, hjk]
        · have hbj : (p.1 == j) = false := beq_false_of_ne hpj
          simp [hbj]

/-! ## Shape lemmas for the cache operations -/

@[simp]
theorem updateHitRatio_memoryCache (s : CacheState) :
    (updateHitRatio s).memoryCache = s.memoryCache := rfl

@[simp]
theorem updateHitRatio_dbStore (s : CacheState) :
    (updateHitRatio s).dbStore = s.dbStore := rfl

@[simp]
theorem updateHitRatio_totalAccesses (s : CacheState) :
    (updateHitRatio s).totalAccesses = s.totalAccesses := rfl

@[simp]
theorem updateHitRatio_cacheHits (s : CacheState) :
    (updateHitRatio s).cacheHits = s.cacheHits := rfl

@[simp]
theorem updateHitRatio_accessCounts (s : CacheState) :
    (updateHitRatio s).accessCounts = s.accessCounts := rfl

@[simp]
theorem incrementAccessCount_memoryCache (s : CacheState) (id : String) :
    (incrementAccessCount s id).memoryCache = s.memoryCache := rfl

@[simp]
theorem incrementAccessCount_dbStore (s : CacheState) (id : String) :
    (incrementAccessCount s id).dbStore = s.dbStore := rfl

@[simp]
theorem incrementAccessCount_totalAccesses (s : CacheState) (id : String) :
    (incrementAccessCount s id).totalAccesses = s.totalAccesses := rfl

@[simp]
theorem incrementAccessCount_cacheHits (s : CacheState) (id : String) :
    (incrementAccessCount s id).cacheHits = s.cacheHits := rfl

@[simp]
theorem incrementAccessCount_hitRatioQ (s : CacheState) (id : String) :
    (incrementAccessCount s id).hitRatioQ = s.hitRatioQ := rfl

theorem cacheDelete_eq (s : CacheState) (id : String) :
    cacheDelete s id =
      (false, { s with dbStore := aerase s.dbStore id }) := rfl

theorem cacheGet_eq_memHit (s : CacheState) (id : String)
    (e : AudioCacheEntry) (h1 : alookup s.memoryCache id = some e) :
    cacheGet s id =
      (some e.chunks,
        updateHitRatio (incrementAccessCount
          { s with totalAccesses := s.totalAccesses + 1,
                   cacheHits := s.cacheHits + 1 } id)) := by
  unfold cacheGet
  simp [h1]

theorem cacheGet_eq_dbHit (s : CacheState) (id : String)
    (e : AudioCacheEntry) (h1 : alookup s.memoryCache id = none)
    (h2 : alookup s.dbStore id = some e) :
    cacheGet s id =
      (some e.chunks,
        updateHitRatio (incrementAccessCount
          { s with totalAccesses := s.totalAccesses + 1,
                   cacheHits := s.cacheHits + 1,
                   memoryCache := aset s.memoryCache id e } id)) := by
  unfold cacheGet
  simp [h1, h2]

theorem cacheGet_eq_miss (s : CacheState) (id : String)
    (h1 : alookup s.memoryCache id = none)
    (h2 : alookup s.dbStore id = none) :
    cacheGet s id =
      (none,
        updateHitRatio
          { s with totalAccesses := s.totalAccesses + 1 }) := by
  unfold cacheGet
  simp [h1, h2]

theorem cacheGet_totalAccesses (s : CacheState) (id : String) :
    (cacheGet s id).2.totalAccesses = s.totalAccesses + 1 := by
  cases h1 : alookup s.memoryCache id with
  | some e => rw [cacheGet_eq_memHit s id e h1]; simp
  | none =>
      cases h2 : alookup s.dbStore id with
      | some e => rw [cacheGet_eq_dbHit s id e h1 h2]; simp
      | none => rw [cacheGet_eq_miss s id h1 h2]; simp

theorem cacheGet_cacheHits (s : CacheState) (id : String) :
    (cacheGet s id).2.cacheHits =
      s.cacheHits + (if (cacheGet s id).1.isSome then 1 else 0) := by
  cases h1 : alookup s.memoryCache id with
  | some e => rw [cacheGet_eq_memHit s id e h1]; simp
  | none =>
      cases h2 : alookup s.dbStore id with
      | some e => rw [cacheGet_eq_dbHit s id e h1 h2]; simp
      | none => rw [cacheGet_eq_miss s id h1 h2]; simp

theorem cacheGet_hitRatioQ (s : CacheState) (id : String) :
    (cacheGet s id).2.hitRatioQ =
      ((cacheGet s id).2.cacheHits : ℚ) /
        ((cacheGet s id).2.totalAccesses : ℚ) := by
  have htot : (cacheGet s id).2.totalAccesses = s.totalAccesses + 1 :=
    cacheGet_totalAccesses s id
  cases h1 : alookup s.memoryCache id with
  | some e =>
      rw [cacheGet_eq_memHit s id e h1]
      simp [updateHitRatio]
  | none =>
      cases h2 : alookup s.dbStore id with
      | some e =>
          rw [cacheGet_eq_dbHit s id e h1 h2]
          simp [updateHitRatio]
      | none =>
          rw [cacheGet_eq_miss s id h1 h2]
          simp [updateHitRatio]

/-! ## The format sniffer: claim C6 -/

theorem isWavFormat_iff (b : Bytes) :
    isWavFormat b = true ↔
      12 ≤ b.length ∧ byteAt b 0 = 0x52 ∧ byteAt b 1 = 0x49 ∧
        byteAt b 2 = 0x46 ∧ byteAt b 3 = 0x46 ∧ byteAt b 8 = 0x57 ∧
        byteAt b 9 = 0x41 ∧ byteAt b 10 = 0x56 ∧ byteAt b 11 = 0x45 := by
  unfold isWavFormat
  split
  · constructor
    · intro hc
      exact absurd hc (by simp)
    · intro hc
      omega
  · constructor
    · intro hc
      refine ⟨by omega, ?_⟩
      simpa using of_decide_eq_true hc
    · intro hc
      exact decide_eq_true hc.2

theorem isMp3Format_iff (b : Bytes) :
    isMp3Format b = true ↔
      3 ≤ b.length ∧
        ((byteAt b 0 = 0x49 ∧ byteAt b 1 = 0x44 ∧ byteAt b 2 = 0x33) ∨
          (byteAt b 0 = 0xFF ∧ Nat.land (byteAt b 1) 0xE0 = 0xE0) ∨
          (128 ≤ b.length ∧ byteAt b (b.length - 128) = 0x54 ∧
            byteAt b (b.length - 128 + 1) = 0x41 ∧
            byteAt b (b.length - 128 + 2) = 0x47)) := by
  unfold isMp3Format
  split_ifs with h1 h2 h3 h4 <;> simp_all
  omega

theorem isWebMFormat_iff (b : Bytes) :
    isWebMFormat b = true ↔
      4 ≤ b.length ∧ byteAt b 0 = 0x1A ∧ byteAt b 1 = 0x45 ∧
        byteAt b 2 = 0xDF ∧ byteAt b 3 = 0xA3 := by
  unfold isWebMFormat
  split
  · constructor
    · intro hc
      exact absurd hc (by simp)
    · intro hc
      omega
  · constructor
    · intro hc
      refine ⟨by omega, ?_⟩
      simpa using of_decide_eq_true hc
    · intro hc
      exact decide_eq_true hc.2

theorem isOggFormat_iff (b : Bytes) :
    isOggFormat b = true ↔
      4 ≤ b.length ∧ byteAt b 0 = 0x4F ∧ byteAt b 1 = 0x67 ∧
        byteAt b 2 = 0x67 ∧ byteAt b 3 = 0x53 := by
  unfold isOggFormat
  split
  · constructor
    · intro hc
      exact absurd hc (by simp)
    · intro hc
      omega
  · constructor
    · intro hc
      refine ⟨by omega, ?_⟩
      simpa using of_decide_eq_true hc
    · intro hc
      exact decide_eq_true hc.2

/-- C6 counterexample: the claim says detectAudioFormat classifies every
byte prefix exactly by the stated rules, but on the two-byte prefix
FF E3 (a frame-sync pattern: 0xFF then a byte with its top three bits
set) the stated rules give mp3 while the code, whose _isMp3Format first
requires at least 3 bytes, gives unknown. -/
theorem c6_counterexample :
    detectAudioFormat [0xFF, 0xE3] ≠ specFormatRules [0xFF, 0xE3] ∧
      (specFormatRules [0xFF, 0xE3]).type = AudioType.mp3 ∧
      (detectAudioFormat [0xFF, 0xE3]).type = AudioType.unknown := by
  refine ⟨?_, by decide, by decide⟩
  decide

/-- C6 (amended): detectAudioFormat classifies every byte prefix exactly
by the stated rules, amended in two points the code forces: an mp3
classification requires at least 3 bytes of input, and an ID3v1 trailer
(TAG at offset length - 128) also counts as an ID3 tag.  All other rules
hold as stated: RIFF/WAVE gives wav with requiresConversion = true, EBML
gives webm, OggS gives ogg, anything else is unknown and non-streamable
with the audio/mpeg fallback, in that priority order, and the function is
a pure function of the byte prefix. -/
theorem c6_detect_format_amended (bytes : Bytes) :
    detectAudioFormat bytes = specFormatRulesAmended bytes := by
  unfold detectAudioFormat specFormatRulesAmended
  by_cases h1 : isWavFormat bytes = true
  · rw [if_pos h1, if_pos ((isWavFormat_iff bytes).mp h1)]
  · rw [if_neg h1, if_neg (fun hc => h1 ((isWavFormat_iff bytes).mpr hc))]
    by_cases h2 : isMp3Format bytes = true
    · have h2s := (isMp3Format_iff bytes).mp h2
      rw [if_pos h2, if_pos ⟨h2s.1, h2s.2⟩]
    · rw [if_neg h2, if_neg (fun hc => h2 ((isMp3Format_iff bytes).mpr hc))]
      by_cases h3 : isWebMFormat bytes = true
      · rw [if_pos h3, if_pos ((isWebMFormat_iff bytes).mp h3)]
      · rw [if_neg h3,
          if_neg (fun hc => h3 ((isWebMFormat_iff bytes).mpr hc))]
        by_cases h4 : isOggFormat bytes = true
        · rw [if_pos h4, if_pos ((isOggFormat_iff bytes).mp h4)]
        · rw [if_neg h4,
            if_neg (fun hc => h4 ((isOggFormat_iff bytes).mpr hc))]

/-! ## Field lemmas for the remaining cache operations -/

@[simp]
theorem cacheSet_totalAccesses (s : CacheState) (id : String)
    (chunks : List Bytes) (m : String) (now : Nat) (tags : List String)
    (p : Bool) :
    (cacheSet s id chunks m now tags p).totalAccesses =
      s.totalAccesses := rfl

@[simp]
theorem cacheSet_cacheHits (s : CacheState) (id : String)
    (chunks : List Bytes) (m : String) (now : Nat) (tags : List String)
    (p : Bool) :
    (cacheSet s id chunks m now tags p).cacheHits = s.cacheHits := rfl

@[simp]
theorem cacheSet_hitRatioQ (s : CacheState) (id : String)
    (chunks : List Bytes) (m : String) (now : Nat) (tags : List String)
    (p : Bool) :
    (cacheSet s id chunks m now tags p).hitRatioQ = s.hitRatioQ := rfl

/-- A helper for the two deletion folds of cleanup: a property of the
state component is preserved along any foldl whose step preserves it. -/
theorem foldl_preserve {α : Type} {P : CacheState → Prop}
    (f : Nat × CacheState → α → Nat × CacheState)
    (hf : ∀ acc x, P acc.2 → P (f acc x).2) :
    ∀ (l : List α) (acc : Nat × CacheState), P acc.2 → P (l.foldl f acc).2
  | [], _, h => h
  | x :: rest, acc, h =>
      foldl_preserve f hf rest (f acc x) (hf acc x h)

/-! ## The entry-faithfulness invariant (claim C1) -/

theorem entryFaithful_set_self (s : CacheState) (id : String)
    (chunks : List Bytes) (m : String) (now : Nat) (tags : List String)
    (p : Bool) :
    entryFaithful (cacheSet s id chunks m now tags p) id chunks := by
  constructor <;> intro e he <;>
    simp only [cacheSet] at he <;>
    rw [alookup_aset_self] at he <;>
    injection he with he2 <;>
    rw [← he2]

theorem entryFaithful_get (s : CacheState) (id : String) (c : List Bytes)
    (j : String) (h : entryFaithful s id c) :
    entryFaithful (cacheGet s j).2 id c := by
  obtain ⟨hm, hd⟩ := h
  cases h1 : alookup s.memoryCache j with
  | some e =>
      rw [cacheGet_eq_memHit s j e h1]
      constructor
      · intro e2 he2
        exact hm e2 (by simpa using he2)
      · intro e2 he2
        exact hd e2 (by simpa using he2)
  | none =>
      cases h2 : alookup s.dbStore j with
      | some e =>
          rw [cacheGet_eq_dbHit s j e h1 h2]
          constructor
          · intro e2 he2
            simp only [updateHitRatio_memoryCache,
              incrementAccessCount_memoryCache] at he2
            by_cases hij : id = j
            · subst hij
              rw [alookup_aset_self] at he2
              injection he2 with he3
              rw [← he3]
              exact hd e h2
            · rw [alookup_aset_ne _ _ _ _ hij] at he2
              exact hm e2 he2
          · intro e2 he2
            exact hd e2 (by simpa using he2)
      | none =>
          rw [cacheGet_eq_miss s j h1 h2]
          constructor
          · intro e2 he2
            exact hm e2 (by simpa using he2)
          · intro e2 he2
            exact hd e2 (by simpa using he2)

theorem entryFaithful_has (s : CacheState) (id : String) (c : List Bytes)
    (j : String) (h : entryFaithful s id c) :
    entryFaithful (cacheHas s j).2 id c := by
  unfold cacheHas
  by_cases h1 : (alookup s.memoryCache j).isSome = true
  · rw [if_pos h1]
    exact h
  · rw [if_neg h1]
    exact entryFaithful_get s id c j h

theorem entryFaithful_set_ne (s : CacheState) (id : String)
    (c : List Bytes) (j : String) (chunks : List Bytes) (m : String)
    (now : Nat) (tags : List String) (p : Bool) (hne : id ≠ j)
    (h : entryFaithful s id c) :
    entryFaithful (cacheSet s j chunks m now tags p) id c := by
  obtain ⟨hm, hd⟩ := h
  constructor <;> intro e2 he2
  · simp only [cacheSet] at he2
    rw [alookup_aset_ne _ _ _ _ hne] at he2
    exact hm e2 he2
  · simp only [cacheSet] at he2
    rw [alookup_aset_ne _ _ _ _ hne] at he2
    exact hd e2 he2

theorem entryFaithful_delete (s : CacheState) (id : String)
    (c : List Bytes) (j : String) (h : entryFaithful s id c) :
    entryFaithful (cacheDelete s j).2 id c := by
  obtain ⟨hm, hd⟩ := h
  rw [cacheDelete_eq]
  constructor
  · intro e2 he2
    exact hm e2 he2
  · intro e2 he2
    simp only at he2
    rw [alookup_aerase] at he2
    by_cases hij : id = j
    · rw [if_pos hij] at he2
      cases he2
    · rw [if_neg hij] at he2
      exact hd e2 he2

theorem entryFaithful_clear (s : CacheState) (id : String)
    (c : List Bytes) (_h : entryFaithful s id c) :
    entryFaithful (cacheClear s) id c := by
  constructor <;> intro e2 he2 <;> cases he2

theorem entryFaithful_cleanup (s : CacheState) (id : String)
    (c : List Bytes) (now : Nat) (o : CleanupOptions)
    (h : entryFaithful s id c) :
    entryFaithful (cacheCleanup s now o).2 id c := by
  have hstep1 : ∀ (acc : Nat × CacheState) (e : AudioCacheEntry),
      entryFaithful acc.2 id c →
      entryFaithful
        (if tagSkip o e then acc
          else if shouldDeleteEntry o now e then
            (acc.1 + 1, (cacheDelete acc.2 e.id).2)
          else acc).2 id c := by
    intro acc e hacc
    split
    · exact hacc
    · split
      · exact entryFaithful_delete _ id c _ hacc
      · exact hacc
  have h1 : entryFaithful (cleanupPass1 s now o).2 id c := by
    unfold cleanupPass1
    exact @foldl_preserve _ (fun st => entryFaithful st id c) _ hstep1 _
      (0, s) h
  have hstep2 : ∀ (acc : Nat × CacheState) (e : AudioCacheEntry),
      entryFaithful acc.2 id c →
      entryFaithful (acc.1 + 1, (cacheDelete acc.2 e.id).2).2 id c := by
    intro acc e hacc
    exact entryFaithful_delete _ id c _ hacc
  simp only [cacheCleanup]
  split
  · split
    · exact @foldl_preserve _ (fun st => entryFaithful st id c) _ hstep2 _
        _ h1
    · exact h1
  · exact h1

theorem entryFaithful_applyOp (s : CacheState) (id : String)
    (c : List Bytes) (op : CacheOp) (hop : op.isSetFor id = false)
    (h : entryFaithful s id c) : entryFaithful (applyOp s op) id c := by
  cases op with
  | opGet j => exact entryFaithful_get s id c j h
  | opHas j => exact entryFaithful_has s id c j h
  | opSet j chunks m now tags p =>
      have hne : id ≠ j := by
        intro hc
        rw [CacheOp.isSetFor] at hop
        rw [hc] at hop
        simp at hop
      exact entryFaithful_set_ne s id c j chunks m now tags p hne h
  | opDelete j => exact entryFaithful_delete s id c j h
  | opClear => exact entryFaithful_clear s id c h
  | opCleanup now o => exact entryFaithful_cleanup s id c now o h

theorem entryFaithful_runOps : ∀ (ops : List CacheOp) (s : CacheState)
    (id : String) (c : List Bytes),
    (∀ op ∈ ops, op.isSetFor id = false) → entryFaithful s id c →
    entryFaithful (runOps s ops) id c
  | [], _, _, _, _, h => h
  | op :: rest, s, id, c, hops, h =>
      entryFaithful_runOps rest (applyOp s op) id c
        (fun o ho => hops o (List.mem_cons_of_mem op ho))
        (entryFaithful_applyOp s id c op
          (hops op (List.mem_cons_self op rest)) h)

/-- C1: get(id) immediately after set(id, chunks, mime) returns exactly
the stored chunk sequence (so its byte concatenation equals the byte
concatenation of chunks), and under any further sequence of cache
operations that does not re-set the id (gets, has, deletes, clears,
cleanups, sets of other ids are all allowed), whenever get(id) still
returns a chunk sequence, its byte concatenation equals the byte
concatenation of the original chunks: the stored entry is never
partially overwritten. -/
theorem c1_get_after_set (s : CacheState) (id : String)
    (chunks : List Bytes) (mime : String) (now : Nat) (tags : List String)
    (processed : Bool) (ops : List CacheOp)
    (hops : ∀ op ∈ ops, op.isSetFor id = false) :
    ((cacheGet (cacheSet s id chunks mime now tags processed) id).1 =
        some chunks ∧
      concatBytes
          ((cacheGet (cacheSet s id chunks mime now tags processed)
            id).1.getD []) = concatBytes chunks) ∧
    ∀ res,
      (cacheGet
          (runOps (cacheSet s id chunks mime now tags processed) ops)
          id).1 = some res →
        concatBytes res = concatBytes chunks := by
  constructor
  · have hmem : alookup
        (cacheSet s id chunks mime now tags processed).memoryCache id =
        some
          { id := id, chunks := chunks, mimeType := mime,
            cachedAt := now,
            originalSize := chunks.foldl (fun sum c => sum + c.length) 0,
            processed := processed, tags := tags, accessCount := 0 } := by
      simp only [cacheSet]
      exact alookup_aset_self _ _ _
    rw [cacheGet_eq_memHit _ id _ hmem]
    exact ⟨rfl, rfl⟩
  have hinv :
      entryFaithful
        (runOps (cacheSet s id chunks mime now tags processed) ops) id
        chunks :=
    entryFaithful_runOps ops _ id chunks hops
      (entryFaithful_set_self s id chunks mime now tags processed)
  intro res hres
  obtain ⟨hm, hd⟩ := hinv
  cases h1 : alookup
      (runOps (cacheSet s id chunks mime now tags processed)
        ops).memoryCache id with
  | some e =>
      rw [cacheGet_eq_memHit _ id e h1] at hres
      injection hres with hres2
      rw [← hres2, hm e h1]
  | none =>
      cases h2 : alookup
          (runOps (cacheSet s id chunks mime now tags processed)
            ops).dbStore id with
      | some e =>
          rw [cacheGet_eq_dbHit _ id e h1 h2] at hres
          injection hres with hres2
          rw [← hres2, hd e h2]
      | none =>
          rw [cacheGet_eq_miss _ id h1 h2] at hres
          cases hres

/-- C1 witness: a concrete run with a get, a foreign delete and a
cleanup after the set; the post-ops get concretely returns the stored
chunks, and the invariant is applied at that returned value. -/
theorem c1_witness :
    (∀ op ∈ ([CacheOp.opGet "a", CacheOp.opDelete "b",
        CacheOp.opCleanup 9 { minAccessCount := some 1 }] : List CacheOp),
      op.isSetFor "a" = false) ∧
    (cacheGet
        (runOps (cacheSet (cacheInit []) "a" [[1], [2, 3]] "audio/mpeg"
          5 [] false)
          [CacheOp.opGet "a", CacheOp.opDelete "b",
            CacheOp.opCleanup 9 { minAccessCount := some 1 }])
        "a").1 = some [[1], [2, 3]] ∧
    (((cacheGet (cacheSet (cacheInit []) "a" [[1], [2, 3]] "audio/mpeg"
          5 [] false) "a").1 = some [[1], [2, 3]] ∧
      concatBytes
          ((cacheGet (cacheSet (cacheInit []) "a" [[1], [2, 3]]
            "audio/mpeg" 5 [] false) "a").1.getD []) =
        concatBytes [[1], [2, 3]]) ∧
      ∀ res,
        (cacheGet
            (runOps (cacheSet (cacheInit []) "a" [[1], [2, 3]]
              "audio/mpeg" 5 [] false)
              [CacheOp.opGet "a", CacheOp.opDelete "b",
                CacheOp.opCleanup 9 { minAccessCount := some 1 }])
            "a").1 = some res →
          concatBytes res = concatBytes [[1], [2, 3]]) ∧
    concatBytes [[1], [2, 3]] = concatBytes [[1], [2, 3]] :=
  ⟨by decide, by decide,
    c1_get_after_set (cacheInit []) "a" [[1], [2, 3]] "audio/mpeg" 5 []
      false _ (by decide),
    (c1_get_after_set (cacheInit []) "a" [[1], [2, 3]] "audio/mpeg" 5 []
      false
      [CacheOp.opGet "a", CacheOp.opDelete "b",
        CacheOp.opCleanup 9 { minAccessCount := some 1 }]
      (by decide)).2 [[1], [2, 3]] (by decide)⟩

/-! ## Claim C10: the frame effect of has -/

/-- C10: when the id is present in the in-memory Map, has(id) returns
true and leaves the cache state (in particular the total-access counter,
the hit counter, the per-id access counts and the reported hit ratio)
completely unchanged; only when the id is absent from memory does has
delegate to get, which counts an access. -/
theorem c10_has_frame_effect (s : CacheState) (id : String) :
    ((alookup s.memoryCache id).isSome = true →
      cacheHas s id = (true, s)) ∧
    (alookup s.memoryCache id = none →
      cacheHas s id = ((cacheGet s id).1.isSome, (cacheGet s id).2) ∧
        (cacheHas s id).2.totalAccesses = s.totalAccesses + 1) := by
  constructor
  · intro h
    unfold cacheHas
    rw [if_pos h]
  · intro h
    have hns : ¬ (alookup s.memoryCache id).isSome = true := by
      simp [h]
    constructor
    · unfold cacheHas
      rw [if_neg hns]
    · unfold cacheHas
      rw [if_neg hns]
      exact cacheGet_totalAccesses s id

/-- C10 witness: a state with a cached id (memory fast path, frame
effect) and an empty cache (delegation counts the access). -/
theorem c10_witness :
    ((alookup (cacheSet (cacheInit []) "a" [[1]] "audio/mpeg"
        3).memoryCache "a").isSome = true ∧
      cacheHas (cacheSet (cacheInit []) "a" [[1]] "audio/mpeg" 3) "a" =
        (true, cacheSet (cacheInit []) "a" [[1]] "audio/mpeg" 3)) ∧
    (alookup (cacheInit []).memoryCache "b" = none ∧
      (cacheHas (cacheInit []) "b").2.totalAccesses =
        (cacheInit []).totalAccesses + 1) :=
  ⟨⟨by decide, (c10_has_frame_effect _ "a").1 (by decide)⟩,
    ⟨by decide, ((c10_has_frame_effect _ "b").2 (by decide)).2⟩⟩

/-! ## Claim C7: the hit ratio -/

theorem ratioWF_get (s : CacheState) (id : String) (h : ratioWF s) :
    ratioWF (cacheGet s id).2 := by
  obtain ⟨hle, _, _⟩ := h
  have htot := cacheGet_totalAccesses s id
  have hhits := cacheGet_cacheHits s id
  have hle2 : (cacheGet s id).2.cacheHits ≤
      (cacheGet s id).2.totalAccesses := by
    rw [htot, hhits]
    split <;> omega
  have hpos : (0 : ℚ) < ((cacheGet s id).2.totalAccesses : ℚ) := by
    rw [htot]
    exact_mod_cast Nat.succ_pos s.totalAccesses
  refine ⟨hle2, ?_, ?_⟩
  · rw [cacheGet_hitRatioQ]
    exact div_nonneg (by positivity) (le_of_lt hpos)
  · rw [cacheGet_hitRatioQ, div_le_one hpos]
    exact_mod_cast hle2

theorem ratioWF_has (s : CacheState) (id : String) (h : ratioWF s) :
    ratioWF (cacheHas s id).2 := by
  unfold cacheHas
  by_cases h1 : (alookup s.memoryCache id).isSome = true
  · rw [if_pos h1]
    exact h
  · rw [if_neg h1]
    exact ratioWF_get s id h

theorem ratioWF_delete (s : CacheState) (id : String) (h : ratioWF s) :
    ratioWF (cacheDelete s id).2 := by
  rw [cacheDelete_eq]
  exact h

theorem ratioWF_cleanup (s : CacheState) (now : Nat) (o : CleanupOptions)
    (h : ratioWF s) : ratioWF (cacheCleanup s now o).2 := by
  have hstep1 : ∀ (acc : Nat × CacheState) (e : AudioCacheEntry),
      ratioWF acc.2 →
      ratioWF
        (if tagSkip o e then acc
          else if shouldDeleteEntry o now e then
            (acc.1 + 1, (cacheDelete acc.2 e.id).2)
          else acc).2 := by
    intro acc e hacc
    split
    · exact hacc
    · split
      · exact ratioWF_delete _ _ hacc
      · exact hacc
  have h1 : ratioWF (cleanupPass1 s now o).2 := by
    unfold cleanupPass1
    exact @foldl_preserve _ ratioWF _ hstep1 _ (0, s) h
  simp only [cacheCleanup]
  split
  · split
    · exact @foldl_preserve AudioCacheEntry ratioWF
        (fun acc e => (acc.1 + 1, (cacheDelete acc.2 e.id).2))
        (fun acc e hacc => ratioWF_delete _ _ hacc) _ _ h1
    · exact h1
  · exact h1

theorem ratioWF_applyOp (s : CacheState) (op : CacheOp) (h : ratioWF s) :
    ratioWF (applyOp s op) := by
  cases op with
  | opGet id => exact ratioWF_get s id h
  | opHas id => exact ratioWF_has s id h
  | opSet id chunks m now tags p =>
      obtain ⟨h1, h2, h3⟩ := h
      exact ⟨by simpa using h1, by simpa using h2, by simpa using h3⟩
  | opDelete id => exact ratioWF_delete s id h
  | opClear =>
      obtain ⟨_, h2, h3⟩ := h
      exact ⟨Nat.le_refl 0, h2, h3⟩
  | opCleanup now o => exact ratioWF_cleanup s now o h

theorem ratioWF_runOps : ∀ (ops : List CacheOp) (s : CacheState),
    ratioWF s → ratioWF (runOps s ops)
  | [], _, h => h
  | op :: rest, s, h =>
      ratioWF_runOps rest (applyOp s op) (ratioWF_applyOp s op h)

theorem ratioWF_cacheInit (db : List (String × AudioCacheEntry)) :
    ratioWF (cacheInit db) :=
  ⟨Nat.le_refl 0, le_refl 0, by show (0 : ℚ) ≤ 1; norm_num⟩

theorem runGetsState_totalAccesses : ∀ (ids : List String)
    (s : CacheState),
    (runGetsState s ids).totalAccesses = s.totalAccesses + ids.length
  | [], _ => rfl
  | id :: rest, s => by
      rw [runGetsState, runGetsState_totalAccesses rest,
        cacheGet_totalAccesses]
      simp
      omega

theorem runGetsState_cacheHits : ∀ (ids : List String) (s : CacheState),
    (runGetsState s ids).cacheHits = s.cacheHits + runGetsHits s ids
  | [], _ => rfl
  | id :: rest, s => by
      rw [runGetsState, runGetsState_cacheHits rest, runGetsHits,
        cacheGet_cacheHits]
      split <;> omega

theorem runGetsState_ratio : ∀ (ids : List String) (s : CacheState),
    ids ≠ [] →
    (runGetsState s ids).hitRatioQ =
      ((runGetsState s ids).cacheHits : ℚ) /
        ((runGetsState s ids).totalAccesses : ℚ)
  | [], _, h => absurd rfl h
  | [id], s, _ => by
      rw [runGetsState, runGetsState]
      exact cacheGet_hitRatioQ s id
  | id :: id2 :: rest, s, _ => by
      rw [runGetsState]
      exact runGetsState_ratio (id2 :: rest) (cacheGet s id).2
        (by simp)

/-- C7: over any initialized cache, a sequence of k gets (k at least 1)
of which h hit leaves getStats reporting the hit ratio h / k exactly (as
a rational number), and the reported ratio lies in the unit interval
after every sequence of cache operations. -/
theorem c7_hit_ratio_exact (db : List (String × AudioCacheEntry))
    (ids : List String) (ops : List CacheOp) (h : ids ≠ []) :
    cacheGetStats (runGetsState (cacheInit db) ids) =
      (runGetsHits (cacheInit db) ids : ℚ) / (ids.length : ℚ) ∧
    0 ≤ (runOps (cacheInit db) ops).hitRatioQ ∧
      (runOps (cacheInit db) ops).hitRatioQ ≤ 1 := by
  constructor
  · unfold cacheGetStats
    rw [runGetsState_ratio ids (cacheInit db) h,
      runGetsState_cacheHits ids, runGetsState_totalAccesses ids]
    norm_num [cacheInit]
  · exact (ratioWF_runOps ops (cacheInit db) (ratioWF_cacheInit db)).2

/-- C7 witness: two gets, one hit, over a one-entry cache. -/
theorem c7_witness :
    (["a", "b"] : List String) ≠ [] ∧
    (cacheGetStats
        (runGetsState
          (cacheInit [("a",
            { id := "a", chunks := [[1]], mimeType := "audio/mpeg",
              cachedAt := 0, originalSize := 1 })]) ["a", "b"]) =
      (runGetsHits
          (cacheInit [("a",
            { id := "a", chunks := [[1]], mimeType := "audio/mpeg",
              cachedAt := 0, originalSize := 1 })]) ["a", "b"] : ℚ) /
        ((["a", "b"] : List String).length : ℚ) ∧
      0 ≤ (runOps
          (cacheInit [("a",
            { id := "a", chunks := [[1]], mimeType := "audio/mpeg",
              cachedAt := 0, originalSize := 1 })])
          [CacheOp.opGet "a", CacheOp.opClear]).hitRatioQ ∧
        (runOps
            (cacheInit [("a",
              { id := "a", chunks := [[1]], mimeType := "audio/mpeg",
                cachedAt := 0, originalSize := 1 })])
            [CacheOp.opGet "a", CacheOp.opClear]).hitRatioQ ≤ 1) :=
  ⟨by decide,
    c7_hit_ratio_exact
      [("a",
        { id := "a", chunks := [[1]], mimeType := "audio/mpeg",
          cachedAt := 0, originalSize := 1 })]
      ["a", "b"] [CacheOp.opGet "a", CacheOp.opClear] (by decide)⟩

/-! ## Claims C3 and C4: the access counter and delete -/

/-- C3, evaluated at the failing input: after set("a", [chunkA, chunkB],
"audio/mpeg") and one get("a"), the private in-memory access counter for
"a" is 1, but the persisted entry record still carries accessCount 0 (get
never writes the incremented count back), so re-running
cleanup(minAccessCount 1) evicts "a" from the durable store (reporting
one deletion) instead of leaving it intact as the specification states. -/
theorem c3_access_count_bug :
    alookup
        ((cacheGet (cacheSet (cacheInit []) "a" [[1], [2]] "audio/mpeg"
          100) "a").2).accessCounts "a" = some 1 ∧
    (alookup
        ((cacheGet (cacheSet (cacheInit []) "a" [[1], [2]] "audio/mpeg"
          100) "a").2).dbStore "a").map AudioCacheEntry.accessCount =
      some 0 ∧
    (cacheCleanup
        ((cacheGet (cacheSet (cacheInit []) "a" [[1], [2]] "audio/mpeg"
          100) "a").2) 200 { minAccessCount := some 1 }).1 = 1 ∧
    alookup
        ((cacheCleanup
          ((cacheGet (cacheSet (cacheInit []) "a" [[1], [2]] "audio/mpeg"
            100) "a").2) 200 { minAccessCount := some 1 }).2).dbStore
        "a" = none := by
  refine ⟨by decide, by decide, by decide, by decide⟩

/-- C4, evaluated at the failing input: delete("a") after set("a", ...)
returns false (the IDBObjectStore.delete request completes with result
undefined, so the code's result !== undefined test fails), removes the
durable record but leaves the in-memory copy and its access counter, and
a subsequent get("a") still returns the chunks instead of null. -/
theorem c4_delete_bug :
    (cacheDelete (cacheSet (cacheInit []) "a" [[1, 2]] "audio/mpeg"
      100) "a").1 = false ∧
    alookup
        ((cacheDelete (cacheSet (cacheInit []) "a" [[1, 2]] "audio/mpeg"
          100) "a").2).dbStore "a" = none ∧
    alookup
        ((cacheDelete (cacheSet (cacheInit []) "a" [[1, 2]] "audio/mpeg"
          100) "a").2).memoryCache "a" ≠ none ∧
    (cacheGet
        ((cacheDelete (cacheSet (cacheInit []) "a" [[1, 2]] "audio/mpeg"
          100) "a").2) "a").1 = some [[1, 2]] := by
  refine ⟨by decide, by decide, by decide, by decide⟩

/-! ## Streamer lemmas -/

@[simp]
theorem emitEvent_cache (w : StreamWorld) (t : EventTag) (id : String) :
    (emitEvent w t id).cache = w.cache := rfl

@[simp]
theorem emitEvent_fetchCount (w : StreamWorld) (t : EventTag)
    (id : String) : (emitEvent w t id).fetchCount = w.fetchCount := rfl

@[simp]
theorem emitEvent_bodyReads (w : StreamWorld) (t : EventTag)
    (id : String) : (emitEvent w t id).bodyReads = w.bodyReads := rfl

@[simp]
theorem emitEvent_events (w : StreamWorld) (t : EventTag) (id : String) :
    (emitEvent w t id).events = w.events ++ [(t, id)] := rfl

@[simp]
theorem playFromCacheModel_cache (w : StreamWorld) (id : String) :
    (playFromCacheModel w id).cache = w.cache := rfl

@[simp]
theorem playFromCacheModel_fetchCount (w : StreamWorld) (id : String) :
    (playFromCacheModel w id).fetchCount = w.fetchCount := rfl

@[simp]
theorem playFromCacheModel_bodyReads (w : StreamWorld) (id : String) :
    (playFromCacheModel w id).bodyReads = w.bodyReads := rfl

@[simp]
theorem playFromCacheModel_events (w : StreamWorld) (id : String) :
    (playFromCacheModel w id).events =
      w.events ++ [(EventTag.stateChange, id)] := rfl

theorem cacheGet_dbStore (s : CacheState) (id : String) :
    (cacheGet s id).2.dbStore = s.dbStore := by
  cases h1 : alookup s.memoryCache id with
  | some e => rw [cacheGet_eq_memHit s id e h1]; simp
  | none =>
      cases h2 : alookup s.dbStore id with
      | some e => rw [cacheGet_eq_dbHit s id e h1 h2]; simp
      | none => rw [cacheGet_eq_miss s id h1 h2]; simp

theorem streamerInitialize_inited (w : StreamWorld)
    (h : w.inited = true) : streamerInitialize w = w := by
  unfold streamerInitialize
  rw [if_pos h]

/-! ## Claim C2: second streamFromUrl on a cached id -/

/-- C2 counterexample: with caching enabled (the default), a first
streamFromUrl for id a completes and caches the one-chunk payload; the
second streamFromUrl for the same id does emit cacheHit, but fetchCount
after it is 2: streamFromUrl awaits fetch(url) before streamFromResponse
ever consults the cache, so the cache lookup does not short-circuit the
network access and a second network fetch is performed. -/
theorem c2_counterexample :
    c2World2.fetchCount = 2 ∧
    (EventTag.cacheHit, "a") ∈
      c2World2.events.drop c2World1.events.length := by
  refine ⟨by decide, by decide⟩

/-- C2 (amended): when the id is already cached (and the streamer is
initialized with caching enabled), streamFromUrl emits cacheHit and takes
the cache-playback path without consuming the response body — the
payload is never read and the durable store is untouched — but the fetch
is issued before the cache is consulted, so the call still increments the
network-fetch count by one. -/
theorem c2_cached_call_amended (w : StreamWorld) (resp : NetResponse)
    (id : String) (now : Nat) (suff : Nat → Bool) (cs : List Bytes)
    (hinit : w.inited = true) (hcaching : w.opts.enableCaching = true)
    (hhit : (cacheGet w.cache id).1 = some cs) :
    (streamFromUrl w resp id now suff).fetchCount = w.fetchCount + 1 ∧
    (streamFromUrl w resp id now suff).bodyReads = w.bodyReads ∧
    (streamFromUrl w resp id now suff).events =
      w.events ++ [(EventTag.cacheHit, id), (EventTag.stateChange, id)] ∧
    (streamFromUrl w resp id now suff).cache.dbStore =
      w.cache.dbStore := by
  unfold streamFromUrl streamFromResponse
  rw [streamerInitialize_inited _ (by simpa using hinit)]
  rw [if_pos (by simpa using hcaching)]
  cases hg : cacheGet w.cache id with
  | mk r c2 =>
      rw [hg] at hhit
      simp only at hhit
      subst hhit
      simp [cacheGet_dbStore w.cache id ▸ congrArg CacheState.dbStore
        (congrArg Prod.snd hg)]

/-- C2 witness: a concrete initialized world with a cached id. -/
theorem c2_amended_witness :
    (c2CachedWorld.inited = true ∧
      c2CachedWorld.opts.enableCaching = true ∧
      (cacheGet c2CachedWorld.cache "a").1 = some [[7]]) ∧
    ((streamFromUrl c2CachedWorld c2Resp "a" 1
        (fun _ => true)).fetchCount = c2CachedWorld.fetchCount + 1 ∧
      (streamFromUrl c2CachedWorld c2Resp "a" 1
          (fun _ => true)).bodyReads = c2CachedWorld.bodyReads ∧
      (streamFromUrl c2CachedWorld c2Resp "a" 1
          (fun _ => true)).events =
        c2CachedWorld.events ++
          [(EventTag.cacheHit, "a"), (EventTag.stateChange, "a")] ∧
      (streamFromUrl c2CachedWorld c2Resp "a" 1
          (fun _ => true)).cache.dbStore =
        c2CachedWorld.cache.dbStore) :=
  ⟨⟨by decide, by decide, by decide⟩,
    c2_cached_call_amended c2CachedWorld c2Resp "a" 1 (fun _ => true)
      [[7]] (by decide) (by decide) (by decide)⟩

/-! ## Claim C8: mid-body error leaves the cache untouched -/

theorem drainBody_err : ∀ (chunks : List Bytes) (acc : List Bytes),
    drainBody chunks BodyEnd.bodyErr acc = none
  | [], _ => rfl
  | c :: rest, acc => drainBody_err rest (acc ++ [c])

/-- C8: when the response body rejects mid-read (after any number of
chunks), the cache-fill loop of _cacheFromResponse performs no set at
all: the resulting cache state is exactly the prior one, so an existing
fully cached entry for the id remains byte-for-byte unchanged and a get
for the id returns exactly what it returned before. -/
theorem c8_midbody_error_no_overwrite (w : StreamWorld)
    (resp : NetResponse) (id : String) (now : Nat)
    (herr : resp.bodyErrors = true) :
    (cacheFromResponse w resp id now).cache = w.cache ∧
    ∀ cs, (cacheGet w.cache id).1 = some cs →
      (cacheGet (cacheFromResponse w resp id now).cache id).1 =
        some cs := by
  have hc : (cacheFromResponse w resp id now).cache = w.cache := by
    unfold cacheFromResponse
    rw [herr]
    split
    · rfl
    · simp [drainBody_err]
  exact ⟨hc, fun cs h => by rw [hc]; exact h⟩

/-- C8 witness: a prior entry for a and a body that errors after one
chunk. -/
theorem c8_witness :
    c8Resp.bodyErrors = true ∧
    ((cacheFromResponse c8World c8Resp "a" 9).cache = c8World.cache ∧
      ∀ cs, (cacheGet c8World.cache "a").1 = some cs →
        (cacheGet (cacheFromResponse c8World c8Resp "a" 9).cache
            "a").1 = some cs) :=
  ⟨by decide,
    c8_midbody_error_no_overwrite c8World c8Resp "a" 9 (by decide)⟩

/-! ## Claim C9: cancel mid-playback -/

/-- C9 counterexample: a stream a is mid-playback (the element has a
source and is playing); cancel("a") leaves the audio element exactly as
it was, which is not the reset state, so the playback sink is not left
reset. -/
theorem c9_counterexample :
    (cancelStream c9World "a").audioElement = c9Elem ∧
    (cancelStream c9World "a").audioElement ≠
      resetAudioElement c9Elem := by
  refine ⟨by decide, by decide⟩

theorem contains_filter_ne (l : List String) (id : String) :
    (l.filter (fun x => !(x == id))).contains id = false := by
  induction l with
  | nil => rfl
  | cons x rest ih =>
      rw [List.filter_cons]
      by_cases h : x = id
      · rw [if_neg (by simp [h])]
        exact ih
      · have hb2 : (id == x) = false := beq_false_of_ne (Ne.symm h)
        rw [if_pos (by simp [h]), List.contains_cons, hb2]
        simp [ih]

theorem streamLoopGo_take (suff : Nat → Bool) :
    ∀ (chunks : List Bytes) (i abortAt : Nat) (started : Bool),
    streamLoopGo suff chunks i abortAt started =
      streamLoopGo suff (chunks.take (abortAt - i)) i abortAt started
  | [], _, _, _ => by rw [List.take_nil]
  | c :: rest, i, abortAt, started => by
      by_cases h : abortAt ≤ i
      · have h0 : abortAt - i = 0 := by omega
        rw [h0, List.take_zero, streamLoopGo, streamLoopGo, if_pos h,
          if_pos h]
      · have hm : abortAt - i = (abortAt - (i + 1)) + 1 := by omega
        rw [hm, List.take_succ_cons, streamLoopGo, streamLoopGo,
          if_neg h, if_neg h]
        simp only [streamLoopGo_take suff rest (i + 1) abortAt]

/-- C9 (amended): cancel(id) on an active stream signals the request
token and removes its controller; the playback sink is left exactly as
it was (it is not reset) and the cancellation itself emits nothing; the
playback-feed loop stops at the first checkpoint that observes the
signalled token without emitting any signal from that point on — its
emitted events depend only on the chunks read before the checkpoint, and
a token observed signalled from the start yields no loop event at all. -/
theorem c9_cancel_amended (w : StreamWorld) (id : String)
    (suff : Nat → Bool) (chunks : List Bytes) (abortAt : Nat)
    (hactive : w.activeStreams.contains id = true) :
    ((cancelStream w id).audioElement = w.audioElement ∧
      (cancelStream w id).events = w.events ∧
      (cancelStream w id).activeStreams.contains id = false ∧
      id ∈ (cancelStream w id).abortedTokens) ∧
    streamLoopEvents suff chunks abortAt =
      streamLoopEvents suff (chunks.take abortAt) abortAt ∧
    streamLoopEvents suff chunks 0 = [] := by
  refine ⟨?_, ?_, ?_⟩
  · unfold cancelStream
    rw [if_pos hactive]
    exact ⟨rfl, rfl, contains_filter_ne w.activeStreams id,
      List.mem_cons_self id w.abortedTokens⟩
  · unfold streamLoopEvents
    simpa using streamLoopGo_take suff chunks 0 abortAt false
  · unfold streamLoopEvents
    cases chunks with
    | nil => rw [streamLoopGo, if_pos (Nat.le_refl 0)]
    | cons c rest => rw [streamLoopGo, if_pos (Nat.le_refl 0)]

/-- C9 witness: a world with an active stream a playing. -/
theorem c9_amended_witness :
    c9World.activeStreams.contains "a" = true ∧
    (((cancelStream c9World "a").audioElement = c9World.audioElement ∧
      (cancelStream c9World "a").events = c9World.events ∧
      (cancelStream c9World "a").activeStreams.contains "a" = false ∧
      "a" ∈ (cancelStream c9World "a").abortedTokens) ∧
    streamLoopEvents (fun _ => true) [[1], [2], [3]] 1 =
      streamLoopEvents (fun _ => true) ([[1], [2], [3]].take 1) 1 ∧
    streamLoopEvents (fun _ => true) [[1], [2], [3]] 0 = []) :=
  ⟨by decide,
    c9_cancel_amended c9World "a" (fun _ => true) [[1], [2], [3]] 1
      (by decide)⟩

/-! ## Claim C5: cleanup with maxEntries -/

theorem entryLe_trans (a b c : AudioCacheEntry)
    (h1 : entryLe a b = true) (h2 : entryLe b c = true) :
    entryLe a c = true := by
  simp only [entryLe, Bool.or_eq_true, Bool.and_eq_true,
    decide_eq_true_eq, beq_iff_eq] at h1 h2 ⊢
  omega

theorem entryLe_total (a b : AudioCacheEntry) :
    (entryLe a b || entryLe b a) = true := by
  simp only [entryLe, Bool.or_eq_true, Bool.and_eq_true,
    decide_eq_true_eq, beq_iff_eq]
  omega

theorem tagSkip_maxEntries_only (N : Option Nat) (e : AudioCacheEntry) :
    tagSkip { maxEntries := N } e = false := by
  simp [tagSkip, listTruthy]

theorem shouldDeleteEntry_maxEntries_only (N : Option Nat) (now : Nat)
    (e : AudioCacheEntry) :
    shouldDeleteEntry { maxEntries := N } now e = false := by
  simp [shouldDeleteEntry, natTruthy]

theorem cleanupPass1_maxEntries_only (s : CacheState) (now : Nat)
    (N : Option Nat) :
    cleanupPass1 s now { maxEntries := N } = (0, s) := by
  unfold cleanupPass1
  have hconst : ∀ (l : List AudioCacheEntry) (acc : Nat × CacheState),
      l.foldl
        (fun acc e =>
          if tagSkip { maxEntries := N } e then acc
          else if shouldDeleteEntry { maxEntries := N } now e then
            (acc.1 + 1, (cacheDelete acc.2 e.id).2)
          else acc) acc = acc := by
    intro l
    induction l with
    | nil => intro acc; rfl
    | cons e rest ih =>
        intro acc
        rw [List.foldl_cons, tagSkip_maxEntries_only,
          shouldDeleteEntry_maxEntries_only]
        simpa using ih acc
  exact hconst _ _

theorem deleteFold_count : ∀ (D : List AudioCacheEntry) (cnt : Nat)
    (st : CacheState),
    (D.foldl (fun acc e => (acc.1 + 1, (cacheDelete acc.2 e.id).2))
      (cnt, st)).1 = cnt + D.length
  | [], _, _ => by simp
  | e :: rest, cnt, st => by
      simp only [List.foldl_cons]
      rw [deleteFold_count rest (cnt + 1) ((cacheDelete st e.id).2)]
      simp
      omega

theorem deleteFold_dbStore : ∀ (D : List AudioCacheEntry) (cnt : Nat)
    (st : CacheState),
    (D.foldl (fun acc e => (acc.1 + 1, (cacheDelete acc.2 e.id).2))
        (cnt, st)).2.dbStore =
      D.foldl (fun db e => aerase db e.id) st.dbStore
  | [], _, _ => rfl
  | e :: rest, cnt, st => by
      simp only [List.foldl_cons]
      rw [deleteFold_dbStore rest (cnt + 1) ((cacheDelete st e.id).2)]
      rfl

theorem eraseFold_eq_filter : ∀ (D : List AudioCacheEntry)
    (db : List (String × AudioCacheEntry)),
    D.foldl (fun db e => aerase db e.id) db =
      db.filter (fun p => !(D.any (fun e => p.1 == e.id)))
  | [], db => by simp
  | e :: rest, db => by
      simp only [List.foldl_cons]
      rw [eraseFold_eq_filter rest (aerase db e.id)]
      unfold aerase
      rw [List.filter_filter]
      apply List.filter_congr
      intro p _
      simp only [List.any_cons, Bool.not_or]
      rw [Bool.and_comm]

theorem cacheCleanup_maxEntries_eq (s : CacheState) (now N : Nat)
    (hN : 1 ≤ N) :
    cacheCleanup s now { maxEntries := some N } =
      (if N < s.dbStore.length then
        (((s.dbStore.map Prod.snd).mergeSort entryLe).take
            (s.dbStore.length - N)).foldl
          (fun acc e => (acc.1 + 1, (cacheDelete acc.2 e.id).2)) (0, s)
      else (0, s)) := by
  unfold cacheCleanup
  rw [cleanupPass1_maxEntries_only s now (some N)]
  have ht : natTruthy
      (({ maxEntries := some N } : CleanupOptions).maxEntries) = true := by
    have hne : N ≠ 0 := by omega
    simp [natTruthy, hne]
  rw [if_pos ht]
  simp only [Option.getD, List.length_map]

/-- C5: on a well-formed store, cleanup with only maxEntries = N (N at
least 1) leaves exactly min(entryCount, N) durable entries, reports
entryCount - N deletions, and every deleted entry precedes every
survivor in the (accessCount ascending, then oldest cachedAt) order — so
the survivors are the highest-accessCount entries with ties broken
toward the most recently cached. -/
theorem c5_cleanup_max_entries (s : CacheState) (now : Nat) (N : Nat)
    (hN : 1 ≤ N) (hwf : storeWF s.dbStore) :
    (cacheCleanup s now { maxEntries := some N }).2.dbStore.length =
      min s.dbStore.length N ∧
    (cacheCleanup s now { maxEntries := some N }).1 =
      s.dbStore.length - N ∧
    ∀ p ∈ s.dbStore,
      p ∉ (cacheCleanup s now { maxEntries := some N }).2.dbStore →
      ∀ q ∈ (cacheCleanup s now { maxEntries := some N }).2.dbStore,
        entryLe p.2 q.2 = true := by
  obtain ⟨hkeys, hkeyid⟩ := hwf
  rw [cacheCleanup_maxEntries_eq s now N hN]
  by_cases h : N < s.dbStore.length
  case neg =>
    rw [if_neg h]
    refine ⟨?_, ?_, ?_⟩
    · have hmin : min s.dbStore.length N = s.dbStore.length :=
        Nat.min_eq_left (by omega)
      rw [hmin]
    · show (0 : Nat) = s.dbStore.length - N
      omega
    · intro p hp hnot q _
      exact absurd hp hnot
  case pos =>
    rw [if_pos h]
    have hvalsid : (s.dbStore.map Prod.snd).map (fun e => e.id) =
        s.dbStore.map Prod.fst := by
      rw [List.map_map]
      exact List.map_congr_left (fun p hp => (hkeyid p hp).symm)
    have hvalsIdN : ((s.dbStore.map Prod.snd).map
        (fun e => e.id)).Nodup := by
      rw [hvalsid]
      exact hkeys
    have hvalsN : (s.dbStore.map Prod.snd).Nodup :=
      List.Nodup.of_map _ hvalsIdN
    have hperm : ((s.dbStore.map Prod.snd).mergeSort entryLe).Perm
        (s.dbStore.map Prod.snd) :=
      List.mergeSort_perm (s.dbStore.map Prod.snd) entryLe
    have hsortN : ((s.dbStore.map Prod.snd).mergeSort entryLe).Nodup :=
      (hperm.nodup_iff).mpr hvalsN
    have hPW : List.Pairwise (fun a b => entryLe a b = true)
        ((s.dbStore.map Prod.snd).mergeSort entryLe) :=
      List.sorted_mergeSort entryLe_trans entryLe_total
        (s.dbStore.map Prod.snd)
    have hinj : ∀ ⦃x⦄, x ∈ s.dbStore.map Prod.snd →
        ∀ ⦃y⦄, y ∈ s.dbStore.map Prod.snd → x.id = y.id → x = y :=
      List.inj_on_of_nodup_map hvalsIdN
    have hsortLen :
        ((s.dbStore.map Prod.snd).mergeSort entryLe).length =
          s.dbStore.length := by
      rw [hperm.length_eq, List.length_map]
    have hdb2 :
        ((((s.dbStore.map Prod.snd).mergeSort entryLe).take
            (s.dbStore.length - N)).foldl
          (fun acc e => (acc.1 + 1, (cacheDelete acc.2 e.id).2))
          (0, s)).2.dbStore =
        s.dbStore.filter (fun p =>
          !((((s.dbStore.map Prod.snd).mergeSort entryLe).take
              (s.dbStore.length - N)).any (fun e => p.1 == e.id))) := by
      rw [deleteFold_dbStore, eraseFold_eq_filter]
    have hmemD : ∀ p ∈ s.dbStore,
        ((((s.dbStore.map Prod.snd).mergeSort entryLe).take
            (s.dbStore.length - N)).any (fun e => p.1 == e.id)) = true →
        p.2 ∈ ((s.dbStore.map Prod.snd).mergeSort entryLe).take
          (s.dbStore.length - N) := by
      intro p hp hany
      obtain ⟨d, hdD, hdid⟩ := List.any_eq_true.mp hany
      have hdid2 : p.1 = d.id := eq_of_beq hdid
      have hdvals : d ∈ s.dbStore.map Prod.snd :=
        hperm.mem_iff.mp
          ((List.take_sublist _ _).subset hdD)
      have hpvals : p.2 ∈ s.dbStore.map Prod.snd :=
        List.mem_map_of_mem Prod.snd hp
      have hpd : p.2 = d :=
        hinj hpvals hdvals (by rw [← hkeyid p hp]; exact hdid2)
      rw [hpd]
      exact hdD
    have hsurvK : ∀ q ∈ s.dbStore.filter (fun p =>
        !((((s.dbStore.map Prod.snd).mergeSort entryLe).take
            (s.dbStore.length - N)).any (fun e => p.1 == e.id))),
        q.2 ∈ ((s.dbStore.map Prod.snd).mergeSort entryLe).drop
          (s.dbStore.length - N) := by
      intro q hq
      have hqdb : q ∈ s.dbStore := (List.mem_filter.mp hq).1
      have hkeep := (List.mem_filter.mp hq).2
      have hqvals : q.2 ∈ s.dbStore.map Prod.snd :=
        List.mem_map_of_mem Prod.snd hqdb
      have hqsorted : q.2 ∈
          (s.dbStore.map Prod.snd).mergeSort entryLe :=
        hperm.mem_iff.mpr hqvals
      rw [← List.take_append_drop (s.dbStore.length - N)
        ((s.dbStore.map Prod.snd).mergeSort entryLe)] at hqsorted
      cases List.mem_append.mp hqsorted with
      | inr hK => exact hK
      | inl hD =>
          exfalso
          have hany : ((((s.dbStore.map Prod.snd).mergeSort
              entryLe).take (s.dbStore.length - N)).any
              (fun e => q.1 == e.id)) = true :=
            List.any_eq_true.mpr
              ⟨q.2, hD, by rw [hkeyid q hqdb]; simp⟩
          rw [hany] at hkeep
          simp at hkeep
    have hsvK : ∀ x,
        x ∈ (s.dbStore.filter (fun p =>
          !((((s.dbStore.map Prod.snd).mergeSort entryLe).take
              (s.dbStore.length - N)).any
            (fun e => p.1 == e.id)))).map Prod.snd ↔
        x ∈ ((s.dbStore.map Prod.snd).mergeSort entryLe).drop
          (s.dbStore.length - N) := by
      intro x
      constructor
      · intro hx
        obtain ⟨q, hq, hqx⟩ := List.mem_map.mp hx
        rw [← hqx]
        exact hsurvK q hq
      · intro hx
        have hxsorted : x ∈ (s.dbStore.map Prod.snd).mergeSort entryLe :=
          (List.drop_sublist _ _).subset hx
        have hxvals : x ∈ s.dbStore.map Prod.snd :=
          hperm.mem_iff.mp hxsorted
        obtain ⟨p, hp, hpx⟩ := List.mem_map.mp hxvals
        have hnotD : x ∉ ((s.dbStore.map Prod.snd).mergeSort
            entryLe).take (s.dbStore.length - N) := by
          intro hD
          have hnd : ((((s.dbStore.map Prod.snd).mergeSort
              entryLe).take (s.dbStore.length - N)) ++
              (((s.dbStore.map Prod.snd).mergeSort entryLe).drop
                (s.dbStore.length - N))).Nodup := by
            rw [List.take_append_drop]
            exact hsortN
          exact (List.nodup_append.mp hnd).2.2 hD hx
        have hkeep : (!((((s.dbStore.map Prod.snd).mergeSort
            entryLe).take (s.dbStore.length - N)).any
            (fun e => p.1 == e.id))) = true := by
          by_contra hc
          have hany : ((((s.dbStore.map Prod.snd).mergeSort
              entryLe).take (s.dbStore.length - N)).any
              (fun e => p.1 == e.id)) = true := by
            cases hval : (((s.dbStore.map Prod.snd).mergeSort
                entryLe).take (s.dbStore.length - N)).any
                (fun e => p.1 == e.id) with
            | true => rfl
            | false => exact absurd (by rw [hval]; rfl) hc
          have := hmemD p hp hany
          rw [hpx] at this
          exact hnotD this
        rw [← hpx]
        exact List.mem_map_of_mem Prod.snd
          (List.mem_filter.mpr ⟨hp, hkeep⟩)
    have hsvN : ((s.dbStore.filter (fun p =>
        !((((s.dbStore.map Prod.snd).mergeSort entryLe).take
            (s.dbStore.length - N)).any
          (fun e => p.1 == e.id)))).map Prod.snd).Nodup :=
      ((List.filter_sublist _).map Prod.snd).nodup hvalsN
    have hKN : (((s.dbStore.map Prod.snd).mergeSort entryLe).drop
        (s.dbStore.length - N)).Nodup :=
      (List.drop_sublist _ _).nodup hsortN
    have hpermSv :
        ((s.dbStore.filter (fun p =>
          !((((s.dbStore.map Prod.snd).mergeSort entryLe).take
              (s.dbStore.length - N)).any
            (fun e => p.1 == e.id)))).map Prod.snd).Perm
          (((s.dbStore.map Prod.snd).mergeSort entryLe).drop
            (s.dbStore.length - N)) :=
      (List.perm_ext_iff_of_nodup hsvN hKN).mpr hsvK
    refine ⟨?_, ?_, ?_⟩
    · rw [hdb2]
      have h1 : (s.dbStore.filter (fun p =>
          !((((s.dbStore.map Prod.snd).mergeSort entryLe).take
              (s.dbStore.length - N)).any
            (fun e => p.1 == e.id)))).length =
          ((s.dbStore.filter (fun p =>
            !((((s.dbStore.map Prod.snd).mergeSort entryLe).take
                (s.dbStore.length - N)).any
              (fun e => p.1 == e.id)))).map Prod.snd).length :=
        (List.length_map _ _).symm
      rw [h1, hpermSv.length_eq, List.length_drop, hsortLen]
      omega
    · rw [deleteFold_count, List.length_take, hsortLen]
      omega
    · intro p hp hnot q hq
      rw [hdb2] at hnot hq
      have hkeepfalse : ((((s.dbStore.map Prod.snd).mergeSort
          entryLe).take (s.dbStore.length - N)).any
          (fun e => p.1 == e.id)) = true := by
        by_contra hc
        have hanyf : ((((s.dbStore.map Prod.snd).mergeSort
            entryLe).take (s.dbStore.length - N)).any
            (fun e => p.1 == e.id)) = false := by
          cases hv : (((s.dbStore.map Prod.snd).mergeSort
              entryLe).take (s.dbStore.length - N)).any
              (fun e => p.1 == e.id) with
          | true => exact absurd hv hc
          | false => rfl
        exact hnot (List.mem_filter.mpr ⟨hp, by rw [hanyf]; rfl⟩)
      have hD : p.2 ∈ ((s.dbStore.map Prod.snd).mergeSort entryLe).take
          (s.dbStore.length - N) := hmemD p hp hkeepfalse
      have hK : q.2 ∈ ((s.dbStore.map Prod.snd).mergeSort entryLe).drop
          (s.dbStore.length - N) := hsurvK q hq
      have hnd : List.Pairwise (fun a b => entryLe a b = true)
          ((((s.dbStore.map Prod.snd).mergeSort entryLe).take
            (s.dbStore.length - N)) ++
            (((s.dbStore.map Prod.snd).mergeSort entryLe).drop
              (s.dbStore.length - N))) := by
        rw [List.take_append_drop]
        exact hPW
      exact (List.pairwise_append.mp hnd).2.2 p.2 hD q.2 hK

theorem c5State_wf : storeWF c5State.dbStore := by
  constructor
  · show (["x", "y", "z"] : List String).Nodup
    decide
  · intro p hp
    have hp2 : p ∈ c5Store := hp
    simp only [c5Store, List.mem_cons, List.not_mem_nil, or_false] at hp2
    rcases hp2 with h | h | h <;> subst h <;> rfl

/-- C5 witness: capping the three-entry store at two entries. -/
theorem c5_witness :
    (1 ≤ 2 ∧ storeWF c5State.dbStore) ∧
    ((cacheCleanup c5State 100
          { maxEntries := some 2 }).2.dbStore.length =
        min c5State.dbStore.length 2 ∧
      (cacheCleanup c5State 100 { maxEntries := some 2 }).1 =
        c5State.dbStore.length - 2 ∧
      ∀ p ∈ c5State.dbStore,
        p ∉ (cacheCleanup c5State 100
            { maxEntries := some 2 }).2.dbStore →
        ∀ q ∈ (cacheCleanup c5State 100
            { maxEntries := some 2 }).2.dbStore,
          entryLe p.2 q.2 = true) :=
  ⟨⟨by decide, c5State_wf⟩,
    c5_cleanup_max_entries c5State 100 2 (by decide) c5State_wf⟩

end AudioLibx
